import Mathlib

/-!
# Verification of the conditioning / guidance-score layer

Shallow embedding of `diffusionlib/conditioning_method/jax.py` (the method
registry and the eleven guidance-score variants) over exact field
arithmetic, together with theorems settling the frozen claims about it.

Conventions of the embedding:

* Arrays are total functions out of `Fin`-indexed types; a batched signal
  of shape `(batch, *signal_shape)` is flattened per sample and modelled as
  `Fin b → Fin d → K`, a measurement of shape `(b, d_y)` as
  `Fin b → Fin dy → K`, and the per-step time array `t` of shape `(b, 1)` as
  `Fin b → K` (the source reads `t[0]`, which needs a nonempty batch,
  so a `NeZero b` instance is carried where the source indexes `t[0]`).
* Scalars live in an arbitrary field `K`; claims about exact values are
  instantiated at `K = ℚ` so that witnesses evaluate by `decide`.
* The SDE handle and the observation map are external collaborators
  (spec section 1 "Out of scope"); they are modelled as structures carrying
  exactly the interface the source consumes: the per-sample Tweedie
  posterior-mean estimate, the unconditional score, the variance
  coefficients `ratio` and `r2`, and — standing in for the external
  automatic-differentiation engine — the (mathematical) Jacobians of the
  posterior-mean estimate and of the observation map.  A `vjp` of the
  embedded estimate is then the transposed-Jacobian action, a `jacrev` or
  `jacfwd` is the Jacobian itself, exactly the mathematical contract the
  spec assigns to the AD collaborator.
-/

namespace DiffusionNB

/-! ## Method registry

Model of `__CONDITIONING_METHOD__`, `register_conditioning_method` and
`get_conditioning_method`.  The registry is an association list from names
to constructors; `register` refuses a name that is already bound (the
source raises `NameError "... is already registered!"` before touching the
mapping) and `get` refuses an unbound name (the source raises
`NameError "... is not defined!"`).  Since the model is functional, the
failing `register` simply does not produce a new registry, mirroring the
fact that the source raises before the dict assignment. -/

inductive RegErr where
  | duplicateRegistration
  deriving DecidableEq

inductive GetErr where
  | unknownMethod
  deriving DecidableEq

/-- Association-list lookup, the model of `dict.get(name, None)`. -/
def regLookup {N C : Type} [DecidableEq N] : List (N × C) → N → Option C
  | [], _ => none
  | (k, v) :: r, n => if n = k then some v else regLookup r n

/-- Model of `register_conditioning_method(name)(cls)` acting on a registry:
fails when the name is already bound, otherwise binds `name → cls`. -/
def register_conditioning_method {N C : Type} [DecidableEq N]
    (reg : List (N × C)) (name : N) (cls : C) : Except RegErr (List (N × C)) :=
  if (regLookup reg name).isSome then .error .duplicateRegistration
  else .ok ((name, cls) :: reg)

/-- Model of the lookup part of `get_conditioning_method`: returns the bound
constructor or fails with `UnknownMethodError`. -/
def get_conditioning_method {N C : Type} [DecidableEq N]
    (reg : List (N × C)) (name : N) : Except GetErr C :=
  match regLookup reg name with
  | some c => .ok c
  | none => .error .unknownMethod

/-- Model of the full `get_conditioning_method(name, *args, **kwargs)`:
looks up the constructor and applies it to the supplied construction
arguments (`__CONDITIONING_METHOD__[name](*args, **kwargs)`). -/
def get_conditioning_method_inst {N A I : Type} [DecidableEq N]
    (reg : List (N × (A → I))) (name : N) (args : A) : Except GetErr I :=
  match regLookup reg name with
  | some c => .ok (c args)
  | none => .error .unknownMethod

/-! ## The eleven registered classes and module initialization

`ConditioningMethodName` is a `str` enum; its members hash and compare as
their string values, so the registry is modelled as keyed by those literal
strings (including the misspelled `"diffusion_psoterior_sampling_mod"` and
`"pseduo_inverse_guidance"`).  `CMClass` tags the eleven classes that the
decorators register, in source order. -/

inductive CMClass where
  | dps | dpsMod | pig | vjpAlt | vjp | vjpMask
  | jacRev | jacFwd | jacRevDiagonal | vjpDiagonal | jacFwdDiagonal
  deriving DecidableEq

/-- The eleven enumeration values of `ConditioningMethodName`, as literal
strings, in declaration order. -/
def conditioningMethodNames : List String :=
  [ "diffusion_posterior_sampling"
  , "diffusion_psoterior_sampling_mod"
  , "pseduo_inverse_guidance"
  , "vjp_guidance"
  , "vjp_guidance_alt"
  , "vjp_guidance_mask"
  , "vjp_guidance_diag"
  , "jac_rev_guidance"
  , "jac_rev_guidance_diag"
  , "jac_fwd_guidance"
  , "jac_fwd_guidance_diag" ]

/-- Module initialization: starting from the empty registry, the eleven
`@register_conditioning_method(...)` decorators run top to bottom in source
order (DPS, DPSMod, PIG, VJPAlt, VJP, VJPMask, JacRev, JacFwd,
JacRevDiagonal, VJPDiagonal, JacFwdDiagonal). -/
def moduleInitRegistry : Except RegErr (List (String × CMClass)) := do
  let r0 : List (String × CMClass) := []
  let r1 ← register_conditioning_method r0 "diffusion_posterior_sampling" .dps
  let r2 ← register_conditioning_method r1 "diffusion_psoterior_sampling_mod" .dpsMod
  let r3 ← register_conditioning_method r2 "pseduo_inverse_guidance" .pig
  let r4 ← register_conditioning_method r3 "vjp_guidance_alt" .vjpAlt
  let r5 ← register_conditioning_method r4 "vjp_guidance" .vjp
  let r6 ← register_conditioning_method r5 "vjp_guidance_mask" .vjpMask
  let r7 ← register_conditioning_method r6 "jac_rev_guidance" .jacRev
  let r8 ← register_conditioning_method r7 "jac_fwd_guidance" .jacFwd
  let r9 ← register_conditioning_method r8 "jac_rev_guidance_diag" .jacRevDiagonal
  let r10 ← register_conditioning_method r9 "vjp_guidance_diag" .vjpDiagonal
  register_conditioning_method r10 "jac_fwd_guidance_diag" .jacFwdDiagonal

/-- The registry state after module initialization (most recent binding
first, matching the cons-based model of dict insertion). -/
def initRegistry : List (String × CMClass) :=
  [ ("jac_fwd_guidance_diag", .jacFwdDiagonal)
  , ("vjp_guidance_diag", .vjpDiagonal)
  , ("jac_rev_guidance_diag", .jacRevDiagonal)
  , ("jac_fwd_guidance", .jacFwd)
  , ("jac_rev_guidance", .jacRev)
  , ("vjp_guidance_mask", .vjpMask)
  , ("vjp_guidance", .vjp)
  , ("vjp_guidance_alt", .vjpAlt)
  , ("pseduo_inverse_guidance", .pig)
  , ("diffusion_psoterior_sampling_mod", .dpsMod)
  , ("diffusion_posterior_sampling", .dps) ]

/-! ## Numeric core: external collaborators and batched linear algebra -/

/-- The SDE handle, an external collaborator (spec section 3).  The source
consumes `sde.get_estimate_x_0(observation_map)` — whose returned function
maps a batch `(x, t)` to `(h(x̂₀), (score, aux))` sample by sample — plus the
variance coefficients `ratio(t)` and `r2(t, data_variance)`.  The field
`jac` is the per-sample Jacobian of the posterior-mean estimate with
respect to `x`, the quantity the external automatic-differentiation engine
produces when the source takes a `vjp` / `jacrev` / `jacfwd` of the
estimate. -/
structure SDE (K : Type) (d : ℕ) where
  x0 : (Fin d → K) → K → Fin d → K
  score : (Fin d → K) → K → Fin d → K
  jac : (Fin d → K) → K → Matrix (Fin d) (Fin d) K
  ratio : K → K
  r2 : K → K → K

/-- The observation map, an external collaborator: a differentiable map
from signal space to observation space together with its Jacobian (again,
the quantity the AD engine produces for it). -/
structure ObsMap (K : Type) (d dy : ℕ) where
  h : (Fin d → K) → Fin dy → K
  jacH : (Fin d → K) → Matrix (Fin dy) (Fin d) K

variable {K : Type} [Field K] [DecidableEq K] {b d dy n m p : ℕ}

/-- Model of `jnp.eye(n)`. -/
def eyeM (n : ℕ) : Matrix (Fin n) (Fin n) K :=
  fun i j => if i = j then 1 else 0

/-- The `h(x̂₀)` part of `estimate_h_x_0(x, t)` over a batch: the
observation map applied to the per-sample posterior-mean estimate. -/
def SDE.h_x_0 (sde : SDE K d) (obs : ObsMap K d dy)
    (x : Fin b → Fin d → K) (t : Fin b → K) : Fin b → Fin dy → K :=
  fun k => obs.h (sde.x0 (x k) (t k))

/-- The score part (the auxiliary output `s`) of `estimate_h_x_0(x, t)`. -/
def SDE.scoreB (sde : SDE K d) (x : Fin b → Fin d → K) (t : Fin b → K) :
    Fin b → Fin d → K :=
  fun k => sde.score (x k) (t k)

/-- Per-sample Jacobian of `x ↦ observation_map(x̂₀(x, t))`, by the chain
rule of the AD collaborator. -/
def SDE.jTot (sde : SDE K d) (obs : ObsMap K d dy)
    (x : Fin b → Fin d → K) (t : Fin b → K) (k : Fin b) :
    Matrix (Fin dy) (Fin d) K :=
  obs.jacH (sde.x0 (x k) (t k)) * sde.jac (x k) (t k)

/-- Model of `vjp(lambda x: estimate_h_x_0(x, t), x)` applied to a
cotangent: the transposed-Jacobian action, sample by sample (the batched
estimate is the `vmap` of a per-sample operation, so its Jacobian is block
diagonal across the batch). -/
def vjp_estimate_h_x_0 (sde : SDE K d) (obs : ObsMap K d dy)
    (x : Fin b → Fin d → K) (t : Fin b → K) (V : Fin b → Fin dy → K) :
    Fin b → Fin d → K :=
  fun k => ((sde.jTot obs x t k).transpose).mulVec (V k)

/-- Model of `vjp(lambda x: estimate_x_0(x, t), x)` (identity observation
map) applied to a cotangent. -/
def vjp_estimate_x_0 (sde : SDE K d)
    (x : Fin b → Fin d → K) (t : Fin b → K) (V : Fin b → Fin d → K) :
    Fin b → Fin d → K :=
  fun k => ((sde.jac (x k) (t k)).transpose).mulVec (V k)

/-- Error surfaced by the numeric layer.  `linAlgError` models the
LinearAlgebraError of a singular covariance solve; `unboundLocalF` models
the Python `UnboundLocalError` raised when `PIG.guidance_score` reaches
`vjp_estimate_h_x_0(f)` with the local `f` never assigned (neither shape
branch matched). -/
inductive NumErr where
  | linAlgError
  | unboundLocalF
  deriving DecidableEq

/-- Determinant by Laplace expansion along the first row; an executable
form of `Matrix.det` (which is defined through alternating maps and does
not reduce in the kernel). -/
def detQ : {n : ℕ} → Matrix (Fin n) (Fin n) K → K
  | 0, _ => 1
  | n + 1, A =>
    ∑ j : Fin (n + 1), (-1) ^ (j : ℕ) * A 0 j * detQ (A.submatrix Fin.succ j.succAbove)

/-- Adjugate through the executable determinant
(`adj(A) i j = det (A with row j replaced by the basis vector eᵢ)`). -/
def adjugateQ (A : Matrix (Fin n) (Fin n) K) : Matrix (Fin n) (Fin n) K :=
  fun i j => detQ (A.updateRow j (Pi.single i 1))

/-- Exact linear solve of `A · z = v` for nonsingular `A`, via the
adjugate: `z = det(A)⁻¹ · adj(A) · v`. -/
def solveOne (A : Matrix (Fin n) (Fin n) K) (v : Fin n → K) : Fin n → K :=
  fun i => (detQ A)⁻¹ * (adjugateQ A).mulVec v i

/-- Modelled from the spec: `batch_linalg_solve` from
`diffusionlib.util.misc` is not under `src/`; per the spec it performs one
independent `(d_y × d_y)` solve per sample and fails with
LinearAlgebraError on a singular matrix, surfaced rather than silently
regularized. -/
def batch_linalg_solve (C : Fin b → Matrix (Fin n) (Fin n) K)
    (V : Fin b → Fin n → K) : Except NumErr (Fin b → Fin n → K) :=
  if ∀ k, detQ (C k) ≠ 0 then .ok (fun k => solveOne (C k) (V k))
  else .error .linAlgError

/-- Modelled from the spec: `batch_linalg_solve_A` from
`diffusionlib.util.misc` is not under `src/`; it solves with one fixed
matrix against a batch of right-hand sides, failing with
LinearAlgebraError when that matrix is singular. -/
def batch_linalg_solve_A (A : Matrix (Fin n) (Fin n) K)
    (V : Fin b → Fin n → K) : Except NumErr (Fin b → Fin n → K) :=
  if detQ A ≠ 0 then .ok (fun k => solveOne A (V k))
  else .error .linAlgError

/-- Modelled from the spec: `batch_mul` from `diffusionlib.util.misc`
(batched elementwise scale). -/
def batch_mul (V W : Fin b → Fin n → K) : Fin b → Fin n → K :=
  fun k j => V k j * W k j

/-- Modelled from the spec: `batch_mul_A` (one fixed array multiplied
elementwise against every batch element). -/
def batch_mul_A (A : Matrix (Fin m) (Fin n) K)
    (M : Fin b → Matrix (Fin m) (Fin n) K) : Fin b → Matrix (Fin m) (Fin n) K :=
  fun k i j => A i j * M k i j

/-- Modelled from the spec: `batch_matmul` (per-sample matrix × vector). -/
def batch_matmul (M : Fin b → Matrix (Fin m) (Fin n) K)
    (V : Fin b → Fin n → K) : Fin b → Fin m → K :=
  fun k => (M k).mulVec (V k)

/-- Modelled from the spec: `batch_matmul_A` with a fixed matrix against a
batch of vectors. -/
def batch_matmul_A (A : Matrix (Fin m) (Fin n) K)
    (V : Fin b → Fin n → K) : Fin b → Fin m → K :=
  fun k => A.mulVec (V k)

/-- Modelled from the spec: `batch_matmul_A` with a fixed matrix against a
batch of matrices (the source helper is shape generic). -/
def batch_matmul_A_mat (A : Matrix (Fin m) (Fin n) K)
    (M : Fin b → Matrix (Fin n) (Fin p) K) : Fin b → Matrix (Fin m) (Fin p) K :=
  fun k => A * M k

/-- A dynamically shaped array, needed only for `PIG`, whose guidance
function inspects `HHT.shape` at call time.  `shape` is the jnp shape
tuple; `data` the row-major entries. -/
structure ShapedArr (K : Type) where
  shape : List ℕ
  data : List K

/-- Row-major entry of a `ShapedArr` read as an `n × n` matrix. -/
def ShapedArr.entry2 (A : ShapedArr K) (n : ℕ) (i j : Fin n) : K :=
  A.data.getD (i.val * n + j.val) 0

/-- The single entry of a `ShapedArr` of shape `(1,)`. -/
def ShapedArr.entry0 (A : ShapedArr K) : K :=
  A.data.getD 0 0

/-! ## The guidance-score variants

Each `get_guidance_score_func` closure of the source becomes one function
of the configuration (SDE handle, observation model, measurement, noise
model) and the call arguments `(x, t)`.  Signal arrays are flattened per
sample (`reshape` between `(batch, *signal_shape)` and `(batch, d)` is the
identity of the flat model); the solve-based variants return an `Except`
because the batched solve surfaces LinearAlgebraError. -/

/-- `DPS.get_guidance_score_func`: `l2_norm(x, t)` is
`jnp.linalg.norm(y - h_x_0)` — the Frobenius norm of the whole batched
innovation — with the score as auxiliary output, and the AD engine returns
its mathematical gradient with respect to `x`.  For the embedded
`l2_norm`, the chain rule gives gradient component `(k, i)` equal to
`-(Σ_j innovation k j · jTot k j i) / nrm innovation`; `nrm` is the norm
function of the numeric collaborator (for `K = ℝ` the genuine Frobenius
norm, see `DPS_gradient_theorem`). -/
def DPS.likelihood_score (nrm : (Fin b → Fin dy → K) → K) (sde : SDE K d)
    (obs : ObsMap K d dy) (y : Fin b → Fin dy → K)
    (x : Fin b → Fin d → K) (t : Fin b → K) : Fin b → Fin d → K :=
  let innovation := fun k j => y k j - SDE.h_x_0 sde obs x t k j
  fun k i => -(∑ j, innovation k j * SDE.jTot sde obs x t k j i) / nrm innovation

/-- `DPS` guidance score: `gs = s - scale * ls` (the one variant that
subtracts its likelihood term). -/
def DPS.guidance_score (nrm : (Fin b → Fin dy → K) → K) (sde : SDE K d)
    (obs : ObsMap K d dy) (y : Fin b → Fin dy → K) (scale : K)
    (x : Fin b → Fin d → K) (t : Fin b → K) : Fin b → Fin d → K :=
  let s := SDE.scoreB sde x t
  let ls := DPS.likelihood_score nrm sde obs y x t
  fun k i => s k i - scale * ls k i

/-- `DPSMod.get_guidance_score_func`: one vjp, scalar covariance
`C_yy = noise_std²`, `gs = s + vjp(innovation / C_yy)`. -/
def DPSMod.guidance_score (sde : SDE K d) (obs : ObsMap K d dy)
    (y : Fin b → Fin dy → K) (noise_std : K)
    (x : Fin b → Fin d → K) (t : Fin b → K) : Fin b → Fin d → K :=
  let s := SDE.scoreB sde x t
  let innovation := fun k j => y k j - SDE.h_x_0 sde obs x t k j
  let C_yy := noise_std ^ 2
  let ls := vjp_estimate_h_x_0 sde obs x t (fun k j => innovation k j / C_yy)
  fun k i => s k i + ls k i

/-- The full-`HHT` covariance of `PIG`:
`C_yy = r2(t[0], data_variance=1.0) · HHT + noise_std² · eye(d_y)`. -/
def PIG.C_yy_full (sde : SDE K d) (HHT : ShapedArr K) (noise_std : K)
    (t0 : K) (dy : ℕ) : Matrix (Fin dy) (Fin dy) K :=
  fun i j => sde.r2 t0 1 * HHT.entry2 dy i j + noise_std ^ 2 * eyeM dy i j

/-- `PIG.get_guidance_score_func`: branches on `HHT.shape`.  With shape
`(d_y, d_y)` it solves `C_yy f = innovation` (one fixed matrix, batched
right-hand sides); with shape `(1,)` it divides the innovation by the
scalar `r2(t[0], 1.0) · HHT + noise_std²`; with any other shape neither
branch assigns the local `f`, so the call fails with the Python
`UnboundLocalError` (modelled as `NumErr.unboundLocalF`) — no
ShapeMismatchError is raised earlier.  In both successful branches the
result is mapped back by a single vjp and added to the score. -/
def PIG.guidance_score [NeZero b] (sde : SDE K d) (obs : ObsMap K d dy)
    (y : Fin b → Fin dy → K) (noise_std : K) (HHT : ShapedArr K)
    (x : Fin b → Fin d → K) (t : Fin b → K) :
    Except NumErr (Fin b → Fin d → K) :=
  let s := SDE.scoreB sde x t
  let innovation := fun k j => y k j - SDE.h_x_0 sde obs x t k j
  if HHT.shape = [dy, dy] then
    match batch_linalg_solve_A (PIG.C_yy_full sde HHT noise_std (t 0) dy) innovation with
    | .error e => .error e
    | .ok f => .ok (fun k i => s k i + vjp_estimate_h_x_0 sde obs x t f k i)
  else if HHT.shape = [1] then
    let C_yy := sde.r2 (t 0) 1 * HHT.entry0 + noise_std ^ 2
    .ok (fun k i =>
      s k i + vjp_estimate_h_x_0 sde obs x t (fun k2 j => innovation k2 j / C_yy) k i)
  else .error .unboundLocalF

/-- `batch_H` of `VJP.get_guidance_score_func`:
`jnp.transpose(jnp.tile(H, (shape[0], 1, 1)), axes=(1, 0, 2))`, shape
`(H.shape[0], batch, H.shape[1])`: entry `(i, k, j)` is `H i j`. -/
def VJP.batch_H (H : Matrix (Fin dy) (Fin d) K) (b : ℕ) :
    Fin dy → Fin b → Fin d → K :=
  fun i _ j => H i j

/-- `H_grad_x_0 = vmap(vjp_x_0)(batch_H)` (then a no-op reshape): the
batched vjp mapped over the leading axis of `batch_H`. -/
def VJP.H_grad_x_0 (sde : SDE K d) (H : Matrix (Fin dy) (Fin d) K)
    (x : Fin b → Fin d → K) (t : Fin b → K) : Fin dy → Fin b → Fin d → K :=
  fun i => vjp_estimate_x_0 sde x t (VJP.batch_H H b i)

/-- `H_grad_x_0.transpose(1, 2, 0)`: per sample `k` the `(d, d_y)` matrix
with entry `(m, i) = H_grad_x_0 i k m`. -/
def VJP.Tr (sde : SDE K d) (H : Matrix (Fin dy) (Fin d) K)
    (x : Fin b → Fin d → K) (t : Fin b → K) : Fin b → Matrix (Fin d) (Fin dy) K :=
  fun k m i => VJP.H_grad_x_0 sde H x t i k m

/-- `VJP` covariance:
`C_yy = ratio(t[0]) * batch_matmul_A(H, H_grad_x_0.transpose(1,2,0)) + noise_std² * eye(d_y)`. -/
def VJP.C_yy [NeZero b] (sde : SDE K d) (H : Matrix (Fin dy) (Fin d) K)
    (noise_std : K) (x : Fin b → Fin d → K) (t : Fin b → K) :
    Fin b → Matrix (Fin dy) (Fin dy) K :=
  fun k i j =>
    sde.ratio (t 0) * batch_matmul_A_mat H (VJP.Tr sde H x t) k i j +
      noise_std ^ 2 * eyeM dy i j

/-- `VJP` innovation: `y - batch_matmul_A(H, x_0)`. -/
def VJP.innovation (sde : SDE K d) (H : Matrix (Fin dy) (Fin d) K)
    (y : Fin b → Fin dy → K) (x : Fin b → Fin d → K) (t : Fin b → K) :
    Fin b → Fin dy → K :=
  fun k j => y k j - batch_matmul_A H (fun k2 => sde.x0 (x k2) (t k2)) k j

/-- `VJP.get_guidance_score_func`: the full-covariance solve, with the
likelihood term contracted through `H_grad_x_0.transpose(1, 2, 0)` (the
source computes `ls` via this matmul instead of another vjp) and the no-op
reshape to `s.shape`. -/
def VJP.guidance_score [NeZero b] (sde : SDE K d)
    (H : Matrix (Fin dy) (Fin d) K) (y : Fin b → Fin dy → K) (noise_std : K)
    (x : Fin b → Fin d → K) (t : Fin b → K) :
    Except NumErr (Fin b → Fin d → K) :=
  match batch_linalg_solve (VJP.C_yy sde H noise_std x t)
      (VJP.innovation sde H y x t) with
  | .error e => .error e
  | .ok f => .ok (fun k i =>
      SDE.scoreB sde x t k i + batch_matmul (VJP.Tr sde H x t) f k i)

/-- `batch_H` of `VJPAlt.get_guidance_score_func`: the rows of `H` are
reshaped to the signal shape, tiled over the batch and transposed so the
leading axis again has size `H.shape[0]`; in the flat model the entries
agree with `VJP.batch_H`. -/
def VJPAlt.batch_H (H : Matrix (Fin dy) (Fin d) K) (b : ℕ) :
    Fin dy → Fin b → Fin d → K :=
  fun i _ j => H i j

/-- `H_grad_x_0` of `VJPAlt` (vjp batched over the leading axis of its
`batch_H`, then reshaped to `(H.shape[0], batch, H.shape[1])`). -/
def VJPAlt.H_grad_x_0 (sde : SDE K d) (H : Matrix (Fin dy) (Fin d) K)
    (x : Fin b → Fin d → K) (t : Fin b → K) : Fin dy → Fin b → Fin d → K :=
  fun i => vjp_estimate_x_0 sde x t (VJPAlt.batch_H H b i)

/-- `H_grad_x_0.transpose(1, 2, 0)` of `VJPAlt`. -/
def VJPAlt.Tr (sde : SDE K d) (H : Matrix (Fin dy) (Fin d) K)
    (x : Fin b → Fin d → K) (t : Fin b → K) : Fin b → Matrix (Fin d) (Fin dy) K :=
  fun k m i => VJPAlt.H_grad_x_0 sde H x t i k m

/-- `VJPAlt` covariance (same formula as `VJP`, assembled in its own
closure). -/
def VJPAlt.C_yy [NeZero b] (sde : SDE K d) (H : Matrix (Fin dy) (Fin d) K)
    (noise_std : K) (x : Fin b → Fin d → K) (t : Fin b → K) :
    Fin b → Matrix (Fin dy) (Fin dy) K :=
  fun k i j =>
    sde.ratio (t 0) * batch_matmul_A_mat H (VJPAlt.Tr sde H x t) k i j +
      noise_std ^ 2 * eyeM dy i j

/-- `VJPAlt` innovation: `y - batch_matmul_A(H, x_0.reshape(batch, -1))`. -/
def VJPAlt.innovation (sde : SDE K d) (H : Matrix (Fin dy) (Fin d) K)
    (y : Fin b → Fin dy → K) (x : Fin b → Fin d → K) (t : Fin b → K) :
    Fin b → Fin dy → K :=
  fun k j => y k j - batch_matmul_A H (fun k2 => sde.x0 (x k2) (t k2)) k j

/-- `VJPAlt.get_guidance_score_func`: same covariance and innovation as
`VJP`, but the likelihood term is mapped back through another vjp of the
estimate applied to `batch_matmul_A(H.T, f)` (reshaped to the signal
shape). -/
def VJPAlt.guidance_score [NeZero b] (sde : SDE K d)
    (H : Matrix (Fin dy) (Fin d) K) (y : Fin b → Fin dy → K) (noise_std : K)
    (x : Fin b → Fin d → K) (t : Fin b → K) :
    Except NumErr (Fin b → Fin d → K) :=
  match batch_linalg_solve (VJPAlt.C_yy sde H noise_std x t)
      (VJPAlt.innovation sde H y x t) with
  | .error e => .error e
  | .ok f => .ok (fun k i =>
      SDE.scoreB sde x t k i +
        vjp_estimate_x_0 sde x t (batch_matmul_A H.transpose f) k i)

/-- `VJPMask.get_guidance_score_func`: two vjps; the diagonal covariance
is `ratio(t[0]) * batch_observation_map(vjp_h_x_0(batch_observation_map(ones_like(x)))) + noise_std²`,
and the elementwise-scaled innovation is mapped back by the second vjp. -/
def VJPMask.guidance_score [NeZero b] (sde : SDE K d) (obs : ObsMap K d dy)
    (y : Fin b → Fin dy → K) (noise_std : K)
    (x : Fin b → Fin d → K) (t : Fin b → K) : Fin b → Fin d → K :=
  let s := SDE.scoreB sde x t
  let diag := fun k =>
    obs.h (vjp_estimate_h_x_0 sde obs x t (fun _ => obs.h (fun _ => 1)) k)
  let C_yy := fun k j => sde.ratio (t 0) * diag k j + noise_std ^ 2
  let innovation := fun k j => y k j - SDE.h_x_0 sde obs x t k j
  let ls := vjp_estimate_h_x_0 sde obs x t (fun k j => innovation k j / C_yy k j)
  fun k i => s k i + ls k i

/-- Diagonal second moment of `VJPDiagonal`:
`jnp.sum(batch_mul_A(H, H_grad_x_0.transpose(1, 0, 2)), axis=-1)`. -/
def VJPDiagonal.diag (sde : SDE K d) (H : Matrix (Fin dy) (Fin d) K)
    (x : Fin b → Fin d → K) (t : Fin b → K) : Fin b → Fin dy → K :=
  fun k i =>
    ∑ j, batch_mul_A H (fun k2 i2 j2 => VJP.H_grad_x_0 sde H x t i2 k2 j2) k i j

/-- `VJPDiagonal.get_guidance_score_func`: `H.shape[0]` vjps as in `VJP`
(the construction of `batch_H` and `H_grad_x_0` is line for line that of
`VJP`), but only the diagonal of the second moment is kept, the innovation
is scaled elementwise, and the result mapped back through
`vjp_x_0(batch_matmul_A(H.T, f))`. -/
def VJPDiagonal.guidance_score [NeZero b] (sde : SDE K d)
    (H : Matrix (Fin dy) (Fin d) K) (y : Fin b → Fin dy → K) (noise_std : K)
    (x : Fin b → Fin d → K) (t : Fin b → K) : Fin b → Fin d → K :=
  let s := SDE.scoreB sde x t
  let C_yy := fun k i =>
    sde.ratio (t 0) * VJPDiagonal.diag sde H x t k i + noise_std ^ 2
  let innovation := fun k j =>
    y k j - batch_matmul_A H (fun k2 => sde.x0 (x k2) (t k2)) k j
  let f := batch_mul innovation (fun k i => 1 / C_yy k i)
  let ls := vjp_estimate_x_0 sde x t (batch_matmul_A H.transpose f)
  fun k i => s k i + ls k i

/-- `grad_H_x_0 = jacrev_vmap(x, t)` of `JacRev`: the per-sample Jacobian
of `estimate_h_x_0`, evaluated at the per-sample time. -/
def JacRev.grad_H_x_0 (sde : SDE K d) (obs : ObsMap K d dy)
    (x : Fin b → Fin d → K) (t : Fin b → K) : Fin b → Matrix (Fin dy) (Fin d) K :=
  fun k => sde.jTot obs x t k

/-- `H_grad_H_x_0 = batch_batch_observation_map(grad_H_x_0)`: the
observation map applied to each row of each per-sample Jacobian. -/
def JacRev.H_grad_H_x_0 (sde : SDE K d) (obs : ObsMap K d dy)
    (x : Fin b → Fin d → K) (t : Fin b → K) : Fin b → Matrix (Fin dy) (Fin dy) K :=
  fun k i => obs.h (fun m2 => JacRev.grad_H_x_0 sde obs x t k i m2)

/-- `JacRev` covariance:
`C_yy = ratio(t[0]) * H_grad_H_x_0 + noise_std² * eye(y.shape[1])`. -/
def JacRev.C_yy [NeZero b] (sde : SDE K d) (obs : ObsMap K d dy)
    (noise_std : K) (x : Fin b → Fin d → K) (t : Fin b → K) :
    Fin b → Matrix (Fin dy) (Fin dy) K :=
  fun k i j =>
    sde.ratio (t 0) * JacRev.H_grad_H_x_0 sde obs x t k i j +
      noise_std ^ 2 * eyeM dy i j

/-- `JacRev` innovation: `y - h_x_0`. -/
def JacRev.innovation (sde : SDE K d) (obs : ObsMap K d dy)
    (y : Fin b → Fin dy → K) (x : Fin b → Fin d → K) (t : Fin b → K) :
    Fin b → Fin dy → K :=
  fun k j => y k j - SDE.h_x_0 sde obs x t k j

/-- `JacRev.get_guidance_score_func`: reverse-mode Jacobian, full
covariance solve, and back-projection
`ls = batch_matmul(jnp.transpose(grad_H_x_0, axes), f)` with
`axes = (0, 2, 1)` in the flat model (reshape to `s.shape` is the
identity). -/
def JacRev.guidance_score [NeZero b] (sde : SDE K d) (obs : ObsMap K d dy)
    (y : Fin b → Fin dy → K) (noise_std : K)
    (x : Fin b → Fin d → K) (t : Fin b → K) :
    Except NumErr (Fin b → Fin d → K) :=
  match batch_linalg_solve (JacRev.C_yy sde obs noise_std x t)
      (JacRev.innovation sde obs y x t) with
  | .error e => .error e
  | .ok f => .ok (fun k i =>
      SDE.scoreB sde x t k i +
        batch_matmul (fun k2 => (JacRev.grad_H_x_0 sde obs x t k2).transpose) f k i)

/-- `H_grad_x_0 = jacfwd_vmap(x, t)` of `JacFwd`: the same per-sample
Jacobian as `JacRev.grad_H_x_0`, obtained in forward mode (the AD
collaborator returns the same mathematical Jacobian either way). -/
def JacFwd.H_grad_x_0 (sde : SDE K d) (obs : ObsMap K d dy)
    (x : Fin b → Fin d → K) (t : Fin b → K) : Fin b → Matrix (Fin dy) (Fin d) K :=
  fun k => sde.jTot obs x t k

/-- `H_grad_H_x_0` of `JacFwd`. -/
def JacFwd.H_grad_H_x_0 (sde : SDE K d) (obs : ObsMap K d dy)
    (x : Fin b → Fin d → K) (t : Fin b → K) : Fin b → Matrix (Fin dy) (Fin dy) K :=
  fun k i => obs.h (fun m2 => JacFwd.H_grad_x_0 sde obs x t k i m2)

/-- `JacFwd` covariance. -/
def JacFwd.C_yy [NeZero b] (sde : SDE K d) (obs : ObsMap K d dy)
    (noise_std : K) (x : Fin b → Fin d → K) (t : Fin b → K) :
    Fin b → Matrix (Fin dy) (Fin dy) K :=
  fun k i j =>
    sde.ratio (t 0) * JacFwd.H_grad_H_x_0 sde obs x t k i j +
      noise_std ^ 2 * eyeM dy i j

/-- `JacFwd` innovation: `y - h_x_0`. -/
def JacFwd.innovation (sde : SDE K d) (obs : ObsMap K d dy)
    (y : Fin b → Fin dy → K) (x : Fin b → Fin d → K) (t : Fin b → K) :
    Fin b → Fin dy → K :=
  fun k j => y k j - SDE.h_x_0 sde obs x t k j

/-- `JacFwd.get_guidance_score_func`: forward-mode Jacobian, otherwise the
same structure as `JacRev`. -/
def JacFwd.guidance_score [NeZero b] (sde : SDE K d) (obs : ObsMap K d dy)
    (y : Fin b → Fin dy → K) (noise_std : K)
    (x : Fin b → Fin d → K) (t : Fin b → K) :
    Except NumErr (Fin b → Fin d → K) :=
  match batch_linalg_solve (JacFwd.C_yy sde obs noise_std x t)
      (JacFwd.innovation sde obs y x t) with
  | .error e => .error e
  | .ok f => .ok (fun k i =>
      SDE.scoreB sde x t k i +
        batch_matmul (fun k2 => (JacFwd.H_grad_x_0 sde obs x t k2).transpose) f k i)

/-- `grad_H_x_0` of `JacRevDiagonal`: per-sample `jacrev` with the time
fixed to `t[0]` for every sample (the source passes `t[0]` into
`vec_jacrev` and reshapes it to `(1, 1)`). -/
def JacRevDiagonal.grad_H_x_0 [NeZero b] (sde : SDE K d) (obs : ObsMap K d dy)
    (x : Fin b → Fin d → K) (t : Fin b → K) : Fin b → Matrix (Fin dy) (Fin d) K :=
  fun k => obs.jacH (sde.x0 (x k) (t 0)) * sde.jac (x k) (t 0)

/-- `JacRevDiagonal.get_guidance_score_func`: keeps only
`jnp.diagonal(H_grad_H_x_0, axis1=1, axis2=2)` of the second moment,
scales the innovation elementwise and contracts through the transposed
Jacobian. -/
def JacRevDiagonal.guidance_score [NeZero b] (sde : SDE K d)
    (obs : ObsMap K d dy) (y : Fin b → Fin dy → K) (noise_std : K)
    (x : Fin b → Fin d → K) (t : Fin b → K) : Fin b → Fin d → K :=
  let s := SDE.scoreB sde x t
  let G := JacRevDiagonal.grad_H_x_0 sde obs x t
  let HG := fun k i => obs.h (fun m2 => G k i m2)
  let C_yy := fun k j => sde.ratio (t 0) * HG k j j + noise_std ^ 2
  let innovation := fun k j => y k j - SDE.h_x_0 sde obs x t k j
  let f := batch_mul innovation (fun k j => 1 / C_yy k j)
  let ls := batch_matmul (fun k => (G k).transpose) f
  fun k i => s k i + ls k i

/-- `grad` array of `JacFwdDiagonal`: per-sample `jacfwd` with the time
fixed to `t[0]` for every sample. -/
def JacFwdDiagonal.H_grad_x_0 [NeZero b] (sde : SDE K d) (obs : ObsMap K d dy)
    (x : Fin b → Fin d → K) (t : Fin b → K) : Fin b → Matrix (Fin dy) (Fin d) K :=
  fun k => obs.jacH (sde.x0 (x k) (t 0)) * sde.jac (x k) (t 0)

/-- `JacFwdDiagonal.get_guidance_score_func`: the forward-mode twin of
`JacRevDiagonal`. -/
def JacFwdDiagonal.guidance_score [NeZero b] (sde : SDE K d)
    (obs : ObsMap K d dy) (y : Fin b → Fin dy → K) (noise_std : K)
    (x : Fin b → Fin d → K) (t : Fin b → K) : Fin b → Fin d → K :=
  let s := SDE.scoreB sde x t
  let G := JacFwdDiagonal.H_grad_x_0 sde obs x t
  let HG := fun k i => obs.h (fun m2 => G k i m2)
  let C_yy := fun k j => sde.ratio (t 0) * HG k j j + noise_std ^ 2
  let f := batch_mul (fun k j => y k j - SDE.h_x_0 sde obs x t k j)
    (fun k j => 1 / C_yy k j)
  let ls := batch_matmul (fun k => (G k).transpose) f
  fun k i => s k i + ls k i

/-! ## Shape bookkeeping for the vjp batching of VJP / VJPAlt -/

/-- Shape of `jnp.tile(A, (b, 1, ..., 1))` for an array of shape `s`. -/
def jnp_tile_leading_shape (s : List ℕ) (b : ℕ) : List ℕ := b :: s

/-- Shape of `jnp.transpose(A, axes)` when `axes` swaps the first two axes
and keeps the rest (`(1, 0, 2, ...)`). -/
def jnp_transpose_swap01_shape : List ℕ → List ℕ
  | a :: c :: r => c :: a :: r
  | s => s

/-- The size of the leading axis of `VJP`'s `batch_H`, i.e. the number of
vector-Jacobian products performed by `vmap(vjp_x_0)(batch_H)`:
`batch_H = jnp.transpose(jnp.tile(H, (shape[0], 1, 1)), axes=(1, 0, 2))`
for `H` of shape `(dy, d)` and batch size `bsz`. -/
def VJP.num_vjps (bsz dy d : ℕ) : ℕ :=
  (jnp_transpose_swap01_shape (jnp_tile_leading_shape [dy, d] bsz)).headD 0

/-- The size of the leading axis of `VJPAlt`'s `batch_H` (here `H` is first
reshaped to `(dy, *signal_shape)`, tiled to
`(bsz, dy, *signal_shape)` and transposed by `(1, 0, 2, ...)`). -/
def VJPAlt.num_vjps (bsz dy : ℕ) (signalShape : List ℕ) : ℕ :=
  (jnp_transpose_swap01_shape (jnp_tile_leading_shape (dy :: signalShape) bsz)).headD 0

/-! ## Stub collaborators and solve lemmas -/

/-- The identity observation map with `H = I`: `h(x) = x`, Jacobian `1`. -/
def idObs (K : Type) [Field K] (d : ℕ) : ObsMap K d d :=
  { h := fun v => v, jacH := fun _ => 1 }

/-- The SDE stub of the end-to-end scenario: posterior-mean estimate
`x̂₀ = x` (hence AD Jacobian `1`), score `s = 0`, and unit variance
coefficients (`ratio(t) = 1`, so the scenario's covariance reads
`H·Hᵀ + noise_std²·I` as in the spec's closed form). -/
def stubSDE (K : Type) [Field K] (d : ℕ) : SDE K d :=
  { x0 := fun v _ => v
  , score := fun _ _ => 0
  , jac := fun _ _ => 1
  , ratio := fun _ => 1
  , r2 := fun _ _ => 1 }

/-- The closed-form Kalman-style correction of the spec scenario,
`Hᵗ · (H·Hᵀ + 0.01·I)⁻¹ · (y − H·x)`, written with the exact solve.
Stated from the spec's words, as the comparison target of the end-to-end
scenario. -/
def kalman_correction (H : Matrix (Fin dy) (Fin d) ℚ)
    (y : Fin b → Fin dy → ℚ) (x : Fin b → Fin d → ℚ) : Fin b → Fin d → ℚ :=
  fun k => H.transpose.mulVec
    (solveOne ((H * H.transpose) + (1 / 100 : ℚ) • eyeM dy)
      (fun j => y k j - H.mulVec (x k) j))

/-- An SDE handle whose posterior-mean estimate is constant (so the AD
Jacobian is the zero matrix); used to exhibit singular covariances. -/
def zeroSDE (K : Type) [Field K] (d : ℕ) : SDE K d :=
  { x0 := fun _ _ => 0
  , score := fun _ _ => 0
  , jac := fun _ _ => 0
  , ratio := fun _ => 1
  , r2 := fun _ _ => 1 }

instance {ε α : Type} [DecidableEq ε] [DecidableEq α] : DecidableEq (Except ε α) :=
  fun u v =>
  match u, v with
  | .ok a, .ok b =>
    if h : a = b then isTrue (by rw [h]) else isFalse (by simp [h])
  | .error e, .error f =>
    if h : e = f then isTrue (by rw [h]) else isFalse (by simp [h])
  | .ok _, .error _ => isFalse (by simp)
  | .error _, .ok _ => isFalse (by simp)

/-- An SDE handle whose posterior-mean estimate is the fixed shear map
`v ↦ [[1, 1], [0, 1]] · v` (a linear estimate with a non-symmetric AD
Jacobian). -/
def shearSDE : SDE ℚ 2 :=
  { x0 := fun v _ => (Matrix.of ![![1, 1], ![0, 1]]).mulVec v
  , score := fun _ _ => 0
  , jac := fun _ _ => Matrix.of ![![1, 1], ![0, 1]]
  , ratio := fun _ => 1
  , r2 := fun _ _ => 1 }

/-! ## DPS against the true gradient (real scalars)

`DPS` takes `grad` of `l2_norm(x, t) = jnp.linalg.norm(y - h_x_0)` — the
Frobenius norm of the whole batched innovation.  Over `ℝ`, with the
genuine Frobenius norm, the embedded `DPS.likelihood_score` is proved to
be the true gradient (`fderiv`) of the embedded objective whenever the
posterior-mean estimate is differentiable with the AD-supplied Jacobian
and the innovation is nonzero. -/

/-- The Frobenius norm, the meaning of `jnp.linalg.norm` on a 2-D array. -/
noncomputable def frobNorm (V : Fin b → Fin dy → ℝ) : ℝ :=
  Real.sqrt (∑ k, ∑ j, V k j ^ 2)

/-- The `l2_norm` objective of `DPS.get_guidance_score_func` (its score
auxiliary output is `SDE.scoreB`). -/
def DPS.l2_norm {K : Type} [Field K] (nrm : (Fin b → Fin dy → K) → K)
    (sde : SDE K d) (obs : ObsMap K d dy) (y : Fin b → Fin dy → K)
    (t : Fin b → K) (x : Fin b → Fin d → K) : K :=
  nrm (fun k j => y k j - SDE.h_x_0 sde obs x t k j)

/-- A matrix as a continuous linear map (the derivative the AD collaborator
reports for a map with Jacobian `M`). -/
noncomputable def matCLM (M : Matrix (Fin dy) (Fin d) ℝ) :
    (Fin d → ℝ) →L[ℝ] (Fin dy → ℝ) :=
  LinearMap.toContinuousLinearMap M.mulVecLin

/-- The derivative of `v ↦ estimate_h_x_0(v, t) k j` as a map of the whole
batch: project sample `k`, apply the per-sample Jacobian, read row `j`. -/
noncomputable def sampleDeriv (sde : SDE ℝ d) (obs : ObsMap ℝ d dy)
    (x : Fin b → Fin d → ℝ) (t : Fin b → ℝ) (k : Fin b) (j : Fin dy) :
    (Fin b → Fin d → ℝ) →L[ℝ] ℝ :=
  (ContinuousLinearMap.proj j : (Fin dy → ℝ) →L[ℝ] ℝ).comp
    ((matCLM (sde.jTot obs x t k)).comp
      (ContinuousLinearMap.proj k : (Fin b → Fin d → ℝ) →L[ℝ] (Fin d → ℝ)))

theorem regLookup_isSome_iff_mem {N C : Type} [DecidableEq N]
    (reg : List (N × C)) (n : N) :
    (regLookup reg n).isSome ↔ n ∈ reg.map Prod.fst := by
  induction reg with
  | nil => simp [regLookup]
  | cons hd tl ih =>
    obtain ⟨k, v⟩ := hd
    by_cases h : n = k
    · simp [regLookup, h]
    · simp [regLookup, h, ih]

/-- C4: `get` after `register` returns an instance built by the registered
constructor on the supplied arguments; `get` on an unbound name fails with
`UnknownMethodError`; a second `register` of a bound name fails with
`RegistrationError` (and, the model being functional with the error raised
before any insertion, the registry is left unchanged). -/
theorem register_get_contract {N A I : Type} [DecidableEq N]
    (reg : List (N × (A → I))) (nNew nOld : N) (c c2 c0 : A → I) (args : A)
    (hNew : regLookup reg nNew = none)
    (hOld : regLookup reg nOld = some c0) :
    register_conditioning_method reg nNew c = .ok ((nNew, c) :: reg) ∧
    get_conditioning_method_inst ((nNew, c) :: reg) nNew args = .ok (c args) ∧
    get_conditioning_method_inst reg nNew args = .error .unknownMethod ∧
    register_conditioning_method reg nOld c2 = .error .duplicateRegistration := by
  refine ⟨?_, ?_, ?_, ?_⟩
  · simp [register_conditioning_method, hNew]
  · simp [get_conditioning_method_inst, regLookup]
  · simp [get_conditioning_method_inst, hNew]
  · simp [register_conditioning_method, hOld]

/-- Witness for `register_get_contract` at a concrete registry. -/
theorem register_get_contract_witness :
    (regLookup [(("a" : String), fun n : ℕ => n + 1)] "b" = none ∧
      regLookup [(("a" : String), fun n : ℕ => n + 1)] "a" = some (fun n : ℕ => n + 1)) ∧
    (register_conditioning_method [(("a" : String), fun n : ℕ => n + 1)] "b" (fun n => n * 2)
        = .ok [("b", fun n => n * 2), ("a", fun n => n + 1)] ∧
      get_conditioning_method_inst
          [(("b" : String), fun n : ℕ => n * 2), ("a", fun n => n + 1)] "b" 21
        = .ok 42 ∧
      get_conditioning_method_inst [(("a" : String), fun n : ℕ => n + 1)] "b" 21
        = .error .unknownMethod ∧
      register_conditioning_method [(("a" : String), fun n : ℕ => n + 1)] "a" (fun n => n)
        = .error .duplicateRegistration) := by
  refine ⟨⟨by simp [regLookup], by simp [regLookup]⟩, ?_⟩
  have h := register_get_contract
    [(("a" : String), fun n : ℕ => n + 1)] "b" "a"
    (fun n => n * 2) (fun n => n) (fun n => n + 1) 21
    (by simp [regLookup]) (by simp [regLookup])
  exact h

/-- C10: after module initialization the registry binds exactly the eleven
enumerated names — initialization succeeds producing `initRegistry`, lookup
succeeds precisely on the eleven literal strings, and each name is bound to
its own class.  The model has no other mutating operation, so only an
explicit further `register_conditioning_method` call could change the
mapping. -/
theorem moduleInit_binds_exactly_eleven :
    moduleInitRegistry = .ok initRegistry ∧
    (∀ s : String,
      (get_conditioning_method initRegistry s).isOk ↔ s ∈ conditioningMethodNames) ∧
    get_conditioning_method initRegistry "diffusion_posterior_sampling" = .ok .dps ∧
    get_conditioning_method initRegistry "diffusion_psoterior_sampling_mod" = .ok .dpsMod ∧
    get_conditioning_method initRegistry "pseduo_inverse_guidance" = .ok .pig ∧
    get_conditioning_method initRegistry "vjp_guidance" = .ok .vjp ∧
    get_conditioning_method initRegistry "vjp_guidance_alt" = .ok .vjpAlt ∧
    get_conditioning_method initRegistry "vjp_guidance_mask" = .ok .vjpMask ∧
    get_conditioning_method initRegistry "vjp_guidance_diag" = .ok .vjpDiagonal ∧
    get_conditioning_method initRegistry "jac_rev_guidance" = .ok .jacRev ∧
    get_conditioning_method initRegistry "jac_rev_guidance_diag" = .ok .jacRevDiagonal ∧
    get_conditioning_method initRegistry "jac_fwd_guidance" = .ok .jacFwd ∧
    get_conditioning_method initRegistry "jac_fwd_guidance_diag" = .ok .jacFwdDiagonal := by
  refine ⟨rfl, ?_, rfl, rfl, rfl, rfl, rfl, rfl, rfl, rfl, rfl, rfl, rfl⟩
  intro s
  have hmem : (regLookup initRegistry s).isSome ↔ s ∈ initRegistry.map Prod.fst :=
    regLookup_isSome_iff_mem initRegistry s
  constructor
  · intro h
    have hsome : (regLookup initRegistry s).isSome := by
      cases hre : regLookup initRegistry s with
      | some c => simp
      | none => simp [get_conditioning_method, hre, Except.isOk, Except.toBool] at h
    have := hmem.mp hsome
    simpa [initRegistry, conditioningMethodNames, or_comm, or_assoc, or_left_comm] using this
  · intro h
    have hsome : (regLookup initRegistry s).isSome := by
      apply hmem.mpr
      simpa [initRegistry, conditioningMethodNames, or_comm, or_assoc, or_left_comm] using h
    cases hre : regLookup initRegistry s with
    | some c => simp [get_conditioning_method, hre, Except.isOk, Except.toBool]
    | none => rw [hre] at hsome; simp at hsome

theorem detQ_eq_det : ∀ {n : ℕ} (A : Matrix (Fin n) (Fin n) K), detQ A = A.det := by
  intro n
  induction n with
  | zero =>
    intro A
    simp [detQ, Matrix.det_fin_zero]
  | succ n ih =>
    intro A
    rw [Matrix.det_succ_row_zero,
      show detQ A = ∑ j : Fin (n + 1),
        (-1) ^ (j : ℕ) * A 0 j * detQ (A.submatrix Fin.succ j.succAbove) from rfl]
    exact Finset.sum_congr rfl fun j _ => by rw [ih]

theorem adjugateQ_eq (A : Matrix (Fin n) (Fin n) K) : adjugateQ A = A.adjugate := by
  ext i j
  rw [adjugateQ, detQ_eq_det, Matrix.adjugate_apply]

theorem eyeM_eq_one : (eyeM n : Matrix (Fin n) (Fin n) K) = 1 := by
  ext i j
  simp [eyeM, Matrix.one_apply]

theorem solveOne_smul_one (c : K) (hc : c ≠ 0) (v : Fin n → K) :
    solveOne (c • (1 : Matrix (Fin n) (Fin n) K)) v = fun i => c⁻¹ * v i := by
  funext i
  have hn : 0 < n := i.pos
  have hnn : n - 1 + 1 = n := Nat.succ_pred_eq_of_pos hn
  have hpow : (c : K) ^ n = c ^ (n - 1) * c := by
    conv_lhs => rw [← hnn]
    rw [pow_succ]
  have hcp : (c : K) ^ (n - 1) ≠ 0 := pow_ne_zero _ hc
  simp only [solveOne, detQ_eq_det, adjugateQ_eq, Matrix.det_smul, Matrix.det_one, Matrix.adjugate_smul,
    Matrix.adjugate_one, Matrix.smul_mulVec_assoc, Matrix.one_mulVec,
    Fintype.card_fin, mul_one, Pi.smul_apply, smul_eq_mul]
  rw [hpow, mul_inv]
  field_simp
  ring

theorem stub_Tr (x : Fin b → Fin d → K) (t : Fin b → K) :
    VJP.Tr (stubSDE K d) (eyeM d) x t = fun _ => (1 : Matrix (Fin d) (Fin d) K) := by
  funext k
  ext m i
  simp [VJP.Tr, VJP.H_grad_x_0, VJP.batch_H, vjp_estimate_x_0, stubSDE,
    Matrix.transpose_one, Matrix.one_mulVec, eyeM, Matrix.one_apply, eq_comm]

theorem stub_VJP_C_yy [NeZero b] (noise_std : K)
    (x : Fin b → Fin d → K) (t : Fin b → K) :
    VJP.C_yy (stubSDE K d) (eyeM d) noise_std x t
      = fun _ => (1 + noise_std ^ 2) • (1 : Matrix (Fin d) (Fin d) K) := by
  funext k
  ext i j
  simp only [VJP.C_yy, batch_matmul_A_mat, stub_Tr, Matrix.mul_one]
  rw [eyeM_eq_one]
  simp only [stubSDE, Matrix.smul_apply, smul_eq_mul, Matrix.one_apply]
  by_cases hij : i = j <;> simp [hij]

theorem stub_VJP_innovation (y : Fin b → Fin d → K)
    (x : Fin b → Fin d → K) (t : Fin b → K) :
    VJP.innovation (stubSDE K d) (eyeM d) y x t = fun k j => y k j - x k j := by
  funext k j
  simp [VJP.innovation, batch_matmul_A, stubSDE, eyeM_eq_one, Matrix.one_mulVec]

theorem stub_JacRev_C_yy [NeZero b] (noise_std : K)
    (x : Fin b → Fin d → K) (t : Fin b → K) :
    JacRev.C_yy (stubSDE K d) (idObs K d) noise_std x t
      = fun _ => (1 + noise_std ^ 2) • (1 : Matrix (Fin d) (Fin d) K) := by
  funext k
  ext i j
  simp only [JacRev.C_yy, JacRev.H_grad_H_x_0, JacRev.grad_H_x_0, SDE.jTot,
    idObs, stubSDE, Matrix.one_mul]
  rw [eyeM_eq_one]
  simp only [Matrix.smul_apply, smul_eq_mul, Matrix.one_apply]
  by_cases hij : i = j <;> simp [hij]

theorem kalman_correction_id (y x : Fin b → Fin d → ℚ) :
    kalman_correction (eyeM d) y x
      = fun k j => (100 / 101 : ℚ) * (y k j - x k j) := by
  funext k j
  have hM : ((eyeM d : Matrix (Fin d) (Fin d) ℚ) * (eyeM d).transpose)
      + (1 / 100 : ℚ) • eyeM d
      = ((101 : ℚ) / 100) • (1 : Matrix (Fin d) (Fin d) ℚ) := by
    rw [eyeM_eq_one]
    ext i j
    simp only [Matrix.transpose_one, Matrix.mul_one, Matrix.add_apply,
      Matrix.smul_apply, smul_eq_mul, Matrix.one_apply]
    by_cases hij : i = j <;> simp [hij] <;> norm_num
  simp only [kalman_correction, hM, solveOne_smul_one _ (by norm_num : ((101 : ℚ) / 100) ≠ 0)]
  rw [eyeM_eq_one]
  simp only [Matrix.transpose_one, Matrix.one_mulVec]
  norm_num

/-- C1: in the end-to-end scenario (signal dimension 2, batch size 4,
identity observation map, `H = I₂`, `noise_std = 0.1`, SDE stub with
`x̂₀ = x`, `s = 0`), both `VJP` and `JacRev` return exactly the closed-form
Kalman-style correction `Hᵗ·(H·Hᵀ + 0.01·I)⁻¹·(y − H·x)`. -/
theorem scenario_identity_kalman (y x : Fin 4 → Fin 2 → ℚ) (t : Fin 4 → ℚ) :
    VJP.guidance_score (stubSDE ℚ 2) (eyeM 2) y (1 / 10) x t
      = .ok (kalman_correction (eyeM 2) y x) ∧
    JacRev.guidance_score (stubSDE ℚ 2) (idObs ℚ 2) y (1 / 10) x t
      = .ok (kalman_correction (eyeM 2) y x) := by
  have hcoef : (1 : ℚ) + (1 / 10) ^ 2 ≠ 0 := by norm_num
  have hdet : ∀ k : Fin 4,
      detQ ((fun _ : Fin 4 => ((1 : ℚ) + (1 / 10) ^ 2) • (1 : Matrix (Fin 2) (Fin 2) ℚ)) k) ≠ 0 := by
    intro k
    rw [detQ_eq_det, Matrix.det_smul, Matrix.det_one, mul_one, Fintype.card_fin]
    norm_num
  have hval : (fun k : Fin 4 =>
        solveOne (((1 : ℚ) + (1 / 10) ^ 2) • (1 : Matrix (Fin 2) (Fin 2) ℚ))
          (fun j => y k j - x k j))
      = fun k j => ((1 : ℚ) + (1 / 10) ^ 2)⁻¹ * (y k j - x k j) := by
    funext k
    rw [solveOne_smul_one _ hcoef]
  rw [kalman_correction_id]
  constructor
  · rw [VJP.guidance_score, stub_VJP_C_yy, stub_VJP_innovation,
      batch_linalg_solve, if_pos hdet]
    simp only [hval]
    congr 1
    funext k i
    rw [stub_Tr]
    simp only [SDE.scoreB, stubSDE, batch_matmul, Matrix.one_mulVec, Pi.zero_apply]
    norm_num
  · have hinn : JacRev.innovation (stubSDE ℚ 2) (idObs ℚ 2) y x t
        = fun k j => y k j - x k j := by
      funext k j
      simp [JacRev.innovation, SDE.h_x_0, idObs, stubSDE]
    rw [JacRev.guidance_score, stub_JacRev_C_yy, hinn,
      batch_linalg_solve, if_pos hdet]
    simp only [hval]
    congr 1
    funext k i
    simp only [SDE.scoreB, stubSDE, batch_matmul, JacRev.grad_H_x_0, SDE.jTot,
      idObs, Matrix.one_mul, Matrix.transpose_one, Matrix.one_mulVec]
    norm_num

/-- C9: if `HHT.shape` is neither `(y.shape[1], y.shape[1])` nor `(1,)`,
neither branch of `PIG`'s shape inspection assigns the local `f`, and the
guidance call fails with the unbound-local error — not with a
ShapeMismatchError at construction time, and with no numeric result. -/
theorem pig_unbound_f [NeZero b] (sde : SDE K d) (obs : ObsMap K d dy)
    (y : Fin b → Fin dy → K) (noise_std : K) (HHT : ShapedArr K)
    (x : Fin b → Fin d → K) (t : Fin b → K)
    (h1 : HHT.shape ≠ [dy, dy]) (h2 : HHT.shape ≠ [1]) :
    PIG.guidance_score sde obs y noise_std HHT x t = .error .unboundLocalF := by
  simp [PIG.guidance_score, h1, h2]

/-- Witness for `pig_unbound_f`: an `HHT` of shape `(3,)` against a
measurement with `d_y = 2`. -/
theorem pig_unbound_f_witness :
    ((([3] : List ℕ) ≠ [2, 2]) ∧ (([3] : List ℕ) ≠ [1])) ∧
    PIG.guidance_score (stubSDE ℚ 2) (idObs ℚ 2) (fun _ _ => 0) (1 / 10)
        ⟨[3], [5]⟩ (fun _ _ => (0 : ℚ)) (fun _ : Fin 1 => 0)
      = .error .unboundLocalF :=
  ⟨⟨by decide, by decide⟩,
    pig_unbound_f (stubSDE ℚ 2) (idObs ℚ 2) (fun _ _ => 0) (1 / 10)
      ⟨[3], [5]⟩ (fun _ _ => (0 : ℚ)) (fun _ : Fin 1 => 0)
      (by decide) (by decide)⟩

/-- C6: `PIG` takes its covariance from `r2(t[0], data_variance=1.0)` and
is independent of `ratio`.  With `HHT` of shape `(d_y, d_y)` the
covariance is `r2·HHT + noise_std²·I` and one batched linear solve is
applied to the innovation; with shape `(1,)` the scalar covariance is
`r2·HHT + noise_std²` and the innovation is divided by it; in both cases
the result is mapped back by a single vjp and added to the score.
Replacing the handle's `ratio` by any other function leaves the output
unchanged. -/
theorem pig_uses_r2_not_ratio [NeZero b] (sde : SDE K d) (obs : ObsMap K d dy)
    (y : Fin b → Fin dy → K) (noise_std : K) (datf dats : List K)
    (x : Fin b → Fin d → K) (t : Fin b → K) (r : K → K) :
    PIG.C_yy_full sde ⟨[dy, dy], datf⟩ noise_std (t 0) dy
      = (fun i j => sde.r2 (t 0) 1 * ShapedArr.entry2 ⟨[dy, dy], datf⟩ dy i j
          + noise_std ^ 2 * eyeM dy i j) ∧
    PIG.guidance_score sde obs y noise_std ⟨[dy, dy], datf⟩ x t
      = (match batch_linalg_solve_A
            (PIG.C_yy_full sde ⟨[dy, dy], datf⟩ noise_std (t 0) dy)
            (fun k j => y k j - SDE.h_x_0 sde obs x t k j) with
        | .error e => .error e
        | .ok f => .ok (fun k i =>
            SDE.scoreB sde x t k i + vjp_estimate_h_x_0 sde obs x t f k i)) ∧
    PIG.guidance_score sde obs y noise_std ⟨[1], dats⟩ x t
      = .ok (fun k i => SDE.scoreB sde x t k i + vjp_estimate_h_x_0 sde obs x t
          (fun k2 j => (y k2 j - SDE.h_x_0 sde obs x t k2 j)
            / (sde.r2 (t 0) 1 * ShapedArr.entry0 ⟨[1], dats⟩ + noise_std ^ 2)) k i) ∧
    PIG.guidance_score { sde with ratio := r } obs y noise_std ⟨[dy, dy], datf⟩ x t
      = PIG.guidance_score sde obs y noise_std ⟨[dy, dy], datf⟩ x t ∧
    PIG.guidance_score { sde with ratio := r } obs y noise_std ⟨[1], dats⟩ x t
      = PIG.guidance_score sde obs y noise_std ⟨[1], dats⟩ x t := by
  refine ⟨rfl, ?_, ?_, rfl, rfl⟩
  · simp [PIG.guidance_score]
  · simp [PIG.guidance_score]

/-- C2: for every linear-solve variant — `VJP`, `VJPAlt`, `PIG` with a full
`(d_y, d_y)` `HHT`, `JacRev`, `JacFwd` — a singular `C_yy` makes the
guidance call fail with LinearAlgebraError, surfaced to the caller instead
of being regularized or returning a numeric result. -/
theorem singular_covariance_surfaces [NeZero b] (sde : SDE K d)
    (obs : ObsMap K d dy) (H : Matrix (Fin dy) (Fin d) K)
    (y : Fin b → Fin dy → K) (noise_std : K) (datf : List K)
    (x : Fin b → Fin d → K) (t : Fin b → K)
    (hV : ∃ k, (VJP.C_yy sde H noise_std x t k).det = 0)
    (hVA : ∃ k, (VJPAlt.C_yy sde H noise_std x t k).det = 0)
    (hP : (PIG.C_yy_full sde ⟨[dy, dy], datf⟩ noise_std (t 0) dy).det = 0)
    (hJR : ∃ k, (JacRev.C_yy sde obs noise_std x t k).det = 0)
    (hJF : ∃ k, (JacFwd.C_yy sde obs noise_std x t k).det = 0) :
    VJP.guidance_score sde H y noise_std x t = .error .linAlgError ∧
    VJPAlt.guidance_score sde H y noise_std x t = .error .linAlgError ∧
    PIG.guidance_score sde obs y noise_std ⟨[dy, dy], datf⟩ x t
      = .error .linAlgError ∧
    JacRev.guidance_score sde obs y noise_std x t = .error .linAlgError ∧
    JacFwd.guidance_score sde obs y noise_std x t = .error .linAlgError := by
  have hV2 : ¬ ∀ k, detQ (VJP.C_yy sde H noise_std x t k) ≠ 0 := by
    push_neg
    obtain ⟨k, hk⟩ := hV
    exact ⟨k, by rw [detQ_eq_det]; exact hk⟩
  have hVA2 : ¬ ∀ k, detQ (VJPAlt.C_yy sde H noise_std x t k) ≠ 0 := by
    push_neg
    obtain ⟨k, hk⟩ := hVA
    exact ⟨k, by rw [detQ_eq_det]; exact hk⟩
  have hP2 : detQ (PIG.C_yy_full sde ⟨[dy, dy], datf⟩ noise_std (t 0) dy) = 0 := by
    rw [detQ_eq_det]
    exact hP
  have hJR2 : ¬ ∀ k, detQ (JacRev.C_yy sde obs noise_std x t k) ≠ 0 := by
    push_neg
    obtain ⟨k, hk⟩ := hJR
    exact ⟨k, by rw [detQ_eq_det]; exact hk⟩
  have hJF2 : ¬ ∀ k, detQ (JacFwd.C_yy sde obs noise_std x t k) ≠ 0 := by
    push_neg
    obtain ⟨k, hk⟩ := hJF
    exact ⟨k, by rw [detQ_eq_det]; exact hk⟩
  refine ⟨?_, ?_, ?_, ?_, ?_⟩
  · simp only [VJP.guidance_score, batch_linalg_solve, if_neg hV2]
  · simp only [VJPAlt.guidance_score, batch_linalg_solve, if_neg hVA2]
  · simp [PIG.guidance_score, batch_linalg_solve_A, if_neg, hP2]
  · simp only [JacRev.guidance_score, batch_linalg_solve, if_neg hJR2]
  · simp only [JacFwd.guidance_score, batch_linalg_solve, if_neg hJF2]

/-- Witness for `singular_covariance_surfaces`: with the constant-estimate
handle, `noise_std = 0` and an all-zero full `HHT`, every `C_yy` is the
zero matrix and all five variants surface LinearAlgebraError. -/
theorem singular_covariance_surfaces_witness :
    ((∃ k : Fin 1, (VJP.C_yy (zeroSDE ℚ 2) (eyeM 2) 0
        (fun _ _ => 0) (fun _ => 0) k).det = 0) ∧
      (∃ k : Fin 1, (VJPAlt.C_yy (zeroSDE ℚ 2) (eyeM 2) 0
        (fun _ _ => 0) (fun _ => 0) k).det = 0) ∧
      (PIG.C_yy_full (zeroSDE ℚ 2) ⟨[2, 2], [0, 0, 0, 0]⟩ 0 0 2).det = 0 ∧
      (∃ k : Fin 1, (JacRev.C_yy (zeroSDE ℚ 2) (idObs ℚ 2) 0
        (fun _ _ => 0) (fun _ => 0) k).det = 0) ∧
      (∃ k : Fin 1, (JacFwd.C_yy (zeroSDE ℚ 2) (idObs ℚ 2) 0
        (fun _ _ => 0) (fun _ => 0) k).det = 0)) ∧
    (VJP.guidance_score (zeroSDE ℚ 2) (eyeM 2) (fun _ _ => 0) 0
        (fun _ _ => 0) (fun _ : Fin 1 => 0) = .error .linAlgError ∧
      VJPAlt.guidance_score (zeroSDE ℚ 2) (eyeM 2) (fun _ _ => 0) 0
        (fun _ _ => 0) (fun _ : Fin 1 => 0) = .error .linAlgError ∧
      PIG.guidance_score (zeroSDE ℚ 2) (idObs ℚ 2) (fun _ _ => 0) 0
        ⟨[2, 2], [0, 0, 0, 0]⟩ (fun _ _ => 0) (fun _ : Fin 1 => 0)
        = .error .linAlgError ∧
      JacRev.guidance_score (zeroSDE ℚ 2) (idObs ℚ 2) (fun _ _ => 0) 0
        (fun _ _ => 0) (fun _ : Fin 1 => 0) = .error .linAlgError ∧
      JacFwd.guidance_score (zeroSDE ℚ 2) (idObs ℚ 2) (fun _ _ => 0) 0
        (fun _ _ => 0) (fun _ : Fin 1 => 0) = .error .linAlgError) :=
  ⟨⟨⟨0, by with_unfolding_all decide⟩, ⟨0, by with_unfolding_all decide⟩,
      by with_unfolding_all decide,
      ⟨0, by with_unfolding_all decide⟩, ⟨0, by with_unfolding_all decide⟩⟩,
    singular_covariance_surfaces (zeroSDE ℚ 2) (idObs ℚ 2) (eyeM 2)
      (fun _ _ => 0) 0 [0, 0, 0, 0] (fun _ _ => 0) (fun _ : Fin 1 => 0)
      ⟨0, by with_unfolding_all decide⟩ ⟨0, by with_unfolding_all decide⟩
      (by with_unfolding_all decide)
      ⟨0, by with_unfolding_all decide⟩ ⟨0, by with_unfolding_all decide⟩⟩

/-- C3 counterexample: with the identity observation map and `H = I₂` but a
non-symmetric posterior-mean Jacobian, `VJP` and `JacRev` disagree
(`VJP` solves against `ratio·Jᵀ + σ²I`, `JacRev` against `ratio·J + σ²I`). -/
theorem identity_consistency_counterexample :
    VJP.guidance_score shearSDE (eyeM 2) (fun _ => ![1, 0]) 0
        (fun _ => ![0, 0]) (fun _ : Fin 1 => 0)
      ≠ JacRev.guidance_score shearSDE (idObs ℚ 2) (fun _ => ![1, 0]) 0
        (fun _ => ![0, 0]) (fun _ : Fin 1 => 0) := by
  with_unfolding_all decide

/-- C3 (amended): with the identity observation map and `H = I`, and at
inputs where the per-sample AD Jacobian of the posterior-mean estimate is
symmetric (as for an exact Tweedie estimate, whose Jacobian is
`I + σₜ²·Hessian of log density`), `VJP`, `VJPAlt`, `JacRev` and `JacFwd`
produce exactly equal corrected scores. -/
theorem identity_consistency_symmetric [NeZero b] (sde : SDE K d)
    (y : Fin b → Fin d → K) (noise_std : K)
    (x : Fin b → Fin d → K) (t : Fin b → K)
    (hsymm : ∀ k, (sde.jac (x k) (t k)).transpose = sde.jac (x k) (t k)) :
    VJP.guidance_score sde (eyeM d) y noise_std x t
      = VJPAlt.guidance_score sde (eyeM d) y noise_std x t ∧
    VJP.guidance_score sde (eyeM d) y noise_std x t
      = JacRev.guidance_score sde (idObs K d) y noise_std x t ∧
    JacRev.guidance_score sde (idObs K d) y noise_std x t
      = JacFwd.guidance_score sde (idObs K d) y noise_std x t := by
  have hTr : ∀ k, VJP.Tr sde (eyeM d) x t k = (sde.jac (x k) (t k)).transpose := by
    intro k
    ext m i
    simp [VJP.Tr, VJP.H_grad_x_0, VJP.batch_H, vjp_estimate_x_0, eyeM,
      Matrix.mulVec, Matrix.dotProduct, Matrix.transpose_apply]
  have hC : VJP.C_yy sde (eyeM d) noise_std x t
      = JacRev.C_yy sde (idObs K d) noise_std x t := by
    funext k
    ext i j
    simp only [VJP.C_yy, JacRev.C_yy, batch_matmul_A_mat]
    rw [hTr k, hsymm k]
    simp only [JacRev.H_grad_H_x_0, JacRev.grad_H_x_0, SDE.jTot, idObs,
      eyeM_eq_one, Matrix.one_mul]
  have hInn : VJP.innovation sde (eyeM d) y x t
      = JacRev.innovation sde (idObs K d) y x t := by
    funext k j
    simp [VJP.innovation, JacRev.innovation, batch_matmul_A, SDE.h_x_0, idObs,
      eyeM_eq_one, Matrix.one_mulVec]
  refine ⟨?_, ?_, rfl⟩
  · rw [VJP.guidance_score, VJPAlt.guidance_score]
    have hCA : VJPAlt.C_yy sde (eyeM d) noise_std x t
        = VJP.C_yy sde (eyeM d) noise_std x t := rfl
    have hIA : VJPAlt.innovation sde (eyeM d) y x t
        = VJP.innovation sde (eyeM d) y x t := rfl
    rw [hCA, hIA]
    cases hres : batch_linalg_solve (VJP.C_yy sde (eyeM d) noise_std x t)
        (VJP.innovation sde (eyeM d) y x t) with
    | error e => rfl
    | ok f =>
      dsimp only
      congr 1
      funext k i
      simp only [batch_matmul]
      rw [hTr k]
      simp [vjp_estimate_x_0, batch_matmul_A, eyeM_eq_one, Matrix.transpose_one,
        Matrix.one_mulVec]
  · rw [VJP.guidance_score, JacRev.guidance_score, hC, hInn]
    cases hres : batch_linalg_solve (JacRev.C_yy sde (idObs K d) noise_std x t)
        (JacRev.innovation sde (idObs K d) y x t) with
    | error e => rfl
    | ok f =>
      dsimp only
      congr 1
      funext k i
      simp only [batch_matmul]
      rw [hTr k]
      simp [JacRev.grad_H_x_0, SDE.jTot, idObs, Matrix.one_mul]

/-- Witness for `identity_consistency_symmetric`: the stub handle has the
symmetric Jacobian `1`, and the four variants agree there. -/
theorem identity_consistency_symmetric_witness :
    (∀ k : Fin 1, ((stubSDE ℚ 2).jac ((fun _ => ![3, 7]) k) ((fun _ => 0) k)).transpose
      = (stubSDE ℚ 2).jac ((fun _ => ![3, 7]) k) ((fun _ => 0) k)) ∧
    (VJP.guidance_score (stubSDE ℚ 2) (eyeM 2) (fun _ => ![1, 2]) 1
        (fun _ => ![3, 7]) (fun _ : Fin 1 => 0)
      = VJPAlt.guidance_score (stubSDE ℚ 2) (eyeM 2) (fun _ => ![1, 2]) 1
        (fun _ => ![3, 7]) (fun _ : Fin 1 => 0) ∧
    VJP.guidance_score (stubSDE ℚ 2) (eyeM 2) (fun _ => ![1, 2]) 1
        (fun _ => ![3, 7]) (fun _ : Fin 1 => 0)
      = JacRev.guidance_score (stubSDE ℚ 2) (idObs ℚ 2) (fun _ => ![1, 2]) 1
        (fun _ => ![3, 7]) (fun _ : Fin 1 => 0) ∧
    JacRev.guidance_score (stubSDE ℚ 2) (idObs ℚ 2) (fun _ => ![1, 2]) 1
        (fun _ => ![3, 7]) (fun _ : Fin 1 => 0)
      = JacFwd.guidance_score (stubSDE ℚ 2) (idObs ℚ 2) (fun _ => ![1, 2]) 1
        (fun _ => ![3, 7]) (fun _ : Fin 1 => 0)) :=
  ⟨by with_unfolding_all decide,
    identity_consistency_symmetric (stubSDE ℚ 2) (fun _ => ![1, 2]) 1
      (fun _ => ![3, 7]) (fun _ : Fin 1 => 0) (by with_unfolding_all decide)⟩

/-- C7 counterexample: with batch size `2` and a `1 × 2` matrix `H`, the
leading axis of `batch_H` — the axis `vmap(vjp_x_0)` maps over — has size
`H.shape[0] = 1`, not the batch size `x.shape[0] = 2`, for `VJP` and
`VJPAlt` alike. -/
theorem vjp_batch_axis_counterexample :
    VJP.num_vjps 2 1 2 ≠ 2 ∧ VJPAlt.num_vjps 2 1 [2] ≠ 2 := by
  decide

/-- C7 (amended): `VJP` and `VJPAlt` build the projected Jacobian with
`H.shape[0]` vector-Jacobian products — the batched vjp maps over a leading
axis of size `H.shape[0]` (the observation dimension, as the class
docstrings state), each application yielding one row of `H · J` for every
sample. -/
theorem vjp_batch_axis_is_obs_dim (bsz dy2 d2 : ℕ) (sigShape : List ℕ)
    (sde : SDE K d) (H : Matrix (Fin dy) (Fin d) K)
    (x : Fin b → Fin d → K) (t : Fin b → K) :
    VJP.num_vjps bsz dy2 d2 = dy2 ∧
    VJPAlt.num_vjps bsz dy2 sigShape = dy2 ∧
    (∀ i k, VJP.H_grad_x_0 sde H x t i k
      = fun m2 => (H * sde.jac (x k) (t k)) i m2) ∧
    (∀ i k, VJPAlt.H_grad_x_0 sde H x t i k
      = fun m2 => (H * sde.jac (x k) (t k)) i m2) := by
  refine ⟨rfl, rfl, ?_, ?_⟩
  · intro i k
    funext m2
    simp [VJP.H_grad_x_0, VJP.batch_H, vjp_estimate_x_0, Matrix.mulVec,
      Matrix.mul_apply, Matrix.dotProduct, Matrix.transpose_apply, mul_comm]
  · intro i k
    funext m2
    simp [VJPAlt.H_grad_x_0, VJPAlt.batch_H, vjp_estimate_x_0, Matrix.mulVec,
      Matrix.mul_apply, Matrix.dotProduct, Matrix.transpose_apply, mul_comm]

/-- C8: every guidance variant maps `(x, t)` to an array of the same
(typed) signal shape `Fin b → Fin d → K` as `x`; the reshape steps of the
source are the identity of the flat model and the result is always a
batch-indexed signal array.  The non-solve variants are total; the
solve-based variants produce a value whenever their covariance is
nonsingular (and `PIG` in both of its valid `HHT` shapes). -/
theorem guidance_shape_preserved [NeZero b] (sde : SDE K d)
    (obs : ObsMap K d dy) (H : Matrix (Fin dy) (Fin d) K)
    (y : Fin b → Fin dy → K) (nrm : (Fin b → Fin dy → K) → K)
    (scale noise_std : K) (dats datf : List K)
    (x : Fin b → Fin d → K) (t : Fin b → K)
    (hV : ∀ k, (VJP.C_yy sde H noise_std x t k).det ≠ 0)
    (hVA : ∀ k, (VJPAlt.C_yy sde H noise_std x t k).det ≠ 0)
    (hP : (PIG.C_yy_full sde ⟨[dy, dy], datf⟩ noise_std (t 0) dy).det ≠ 0)
    (hJR : ∀ k, (JacRev.C_yy sde obs noise_std x t k).det ≠ 0)
    (hJF : ∀ k, (JacFwd.C_yy sde obs noise_std x t k).det ≠ 0) :
    (∃ g : Fin b → Fin d → K, DPS.guidance_score nrm sde obs y scale x t = g) ∧
    (∃ g : Fin b → Fin d → K, DPSMod.guidance_score sde obs y noise_std x t = g) ∧
    (∃ g : Fin b → Fin d → K,
      PIG.guidance_score sde obs y noise_std ⟨[1], dats⟩ x t = .ok g) ∧
    (∃ g : Fin b → Fin d → K,
      PIG.guidance_score sde obs y noise_std ⟨[dy, dy], datf⟩ x t = .ok g) ∧
    (∃ g : Fin b → Fin d → K,
      VJP.guidance_score sde H y noise_std x t = .ok g) ∧
    (∃ g : Fin b → Fin d → K,
      VJPAlt.guidance_score sde H y noise_std x t = .ok g) ∧
    (∃ g : Fin b → Fin d → K, VJPMask.guidance_score sde obs y noise_std x t = g) ∧
    (∃ g : Fin b → Fin d → K, VJPDiagonal.guidance_score sde H y noise_std x t = g) ∧
    (∃ g : Fin b → Fin d → K,
      JacRev.guidance_score sde obs y noise_std x t = .ok g) ∧
    (∃ g : Fin b → Fin d → K,
      JacFwd.guidance_score sde obs y noise_std x t = .ok g) ∧
    (∃ g : Fin b → Fin d → K,
      JacRevDiagonal.guidance_score sde obs y noise_std x t = g) ∧
    (∃ g : Fin b → Fin d → K,
      JacFwdDiagonal.guidance_score sde obs y noise_std x t = g) := by
  have hV2 : ∀ k, detQ (VJP.C_yy sde H noise_std x t k) ≠ 0 := fun k => by
    rw [detQ_eq_det]
    exact hV k
  have hVA2 : ∀ k, detQ (VJPAlt.C_yy sde H noise_std x t k) ≠ 0 := fun k => by
    rw [detQ_eq_det]
    exact hVA k
  have hP2 : detQ (PIG.C_yy_full sde ⟨[dy, dy], datf⟩ noise_std (t 0) dy) ≠ 0 := by
    rw [detQ_eq_det]
    exact hP
  have hJR2 : ∀ k, detQ (JacRev.C_yy sde obs noise_std x t k) ≠ 0 := fun k => by
    rw [detQ_eq_det]
    exact hJR k
  have hJF2 : ∀ k, detQ (JacFwd.C_yy sde obs noise_std x t k) ≠ 0 := fun k => by
    rw [detQ_eq_det]
    exact hJF k
  have hps : PIG.guidance_score sde obs y noise_std ⟨[1], dats⟩ x t
      = .ok (fun k i => SDE.scoreB sde x t k i + vjp_estimate_h_x_0 sde obs x t
          (fun k2 j => (y k2 j - SDE.h_x_0 sde obs x t k2 j)
            / (sde.r2 (t 0) 1 * ShapedArr.entry0 ⟨[1], dats⟩ + noise_std ^ 2)) k i) := by
    simp [PIG.guidance_score]
  have hpf : PIG.guidance_score sde obs y noise_std ⟨[dy, dy], datf⟩ x t
      = .ok (fun k i => SDE.scoreB sde x t k i + vjp_estimate_h_x_0 sde obs x t
          (fun k2 => solveOne (PIG.C_yy_full sde ⟨[dy, dy], datf⟩ noise_std (t 0) dy)
            (fun j => y k2 j - SDE.h_x_0 sde obs x t k2 j)) k i) := by
    simp [PIG.guidance_score, batch_linalg_solve_A, hP2]
  have hv : VJP.guidance_score sde H y noise_std x t
      = .ok (fun k i => SDE.scoreB sde x t k i + batch_matmul (VJP.Tr sde H x t)
          (fun k2 => solveOne (VJP.C_yy sde H noise_std x t k2)
            (VJP.innovation sde H y x t k2)) k i) := by
    simp [VJP.guidance_score, batch_linalg_solve, hV2]
  have hva : VJPAlt.guidance_score sde H y noise_std x t
      = .ok (fun k i => SDE.scoreB sde x t k i + vjp_estimate_x_0 sde x t
          (batch_matmul_A H.transpose
            (fun k2 => solveOne (VJPAlt.C_yy sde H noise_std x t k2)
              (VJPAlt.innovation sde H y x t k2))) k i) := by
    simp [VJPAlt.guidance_score, batch_linalg_solve, hVA2]
  have hjr : JacRev.guidance_score sde obs y noise_std x t
      = .ok (fun k i => SDE.scoreB sde x t k i
          + batch_matmul (fun k2 => (JacRev.grad_H_x_0 sde obs x t k2).transpose)
            (fun k2 => solveOne (JacRev.C_yy sde obs noise_std x t k2)
              (JacRev.innovation sde obs y x t k2)) k i) := by
    simp [JacRev.guidance_score, batch_linalg_solve, hJR2]
  have hjf : JacFwd.guidance_score sde obs y noise_std x t
      = .ok (fun k i => SDE.scoreB sde x t k i
          + batch_matmul (fun k2 => (JacFwd.H_grad_x_0 sde obs x t k2).transpose)
            (fun k2 => solveOne (JacFwd.C_yy sde obs noise_std x t k2)
              (JacFwd.innovation sde obs y x t k2)) k i) := by
    simp [JacFwd.guidance_score, batch_linalg_solve, hJF2]
  exact ⟨⟨_, rfl⟩, ⟨_, rfl⟩, ⟨_, hps⟩, ⟨_, hpf⟩, ⟨_, hv⟩, ⟨_, hva⟩, ⟨_, rfl⟩,
    ⟨_, rfl⟩, ⟨_, hjr⟩, ⟨_, hjf⟩, ⟨_, rfl⟩, ⟨_, rfl⟩⟩

/-- Witness for `guidance_shape_preserved` at the stub configuration
(`b = 1`, `d = d_y = 2`, `noise_std = 1`), where every covariance is
`2 · I₂`. -/
theorem guidance_shape_preserved_witness :
    ((∀ k : Fin 1, (VJP.C_yy (stubSDE ℚ 2) (eyeM 2) 1
        (fun _ => ![3, 7]) (fun _ => 0) k).det ≠ 0) ∧
      (∀ k : Fin 1, (VJPAlt.C_yy (stubSDE ℚ 2) (eyeM 2) 1
        (fun _ => ![3, 7]) (fun _ => 0) k).det ≠ 0) ∧
      (PIG.C_yy_full (stubSDE ℚ 2) ⟨[2, 2], [1, 0, 0, 1]⟩ 1 0 2).det ≠ 0 ∧
      (∀ k : Fin 1, (JacRev.C_yy (stubSDE ℚ 2) (idObs ℚ 2) 1
        (fun _ => ![3, 7]) (fun _ => 0) k).det ≠ 0) ∧
      (∀ k : Fin 1, (JacFwd.C_yy (stubSDE ℚ 2) (idObs ℚ 2) 1
        (fun _ => ![3, 7]) (fun _ => 0) k).det ≠ 0)) ∧
    ((∃ g : Fin 1 → Fin 2 → ℚ, DPS.guidance_score (fun _ => 1) (stubSDE ℚ 2)
        (idObs ℚ 2) (fun _ => ![1, 2]) (2 / 5) (fun _ => ![3, 7]) (fun _ => 0) = g) ∧
      (∃ g : Fin 1 → Fin 2 → ℚ, DPSMod.guidance_score (stubSDE ℚ 2) (idObs ℚ 2)
        (fun _ => ![1, 2]) 1 (fun _ => ![3, 7]) (fun _ => 0) = g) ∧
      (∃ g : Fin 1 → Fin 2 → ℚ, PIG.guidance_score (stubSDE ℚ 2) (idObs ℚ 2)
        (fun _ => ![1, 2]) 1 ⟨[1], [1]⟩ (fun _ => ![3, 7]) (fun _ => 0) = .ok g) ∧
      (∃ g : Fin 1 → Fin 2 → ℚ, PIG.guidance_score (stubSDE ℚ 2) (idObs ℚ 2)
        (fun _ => ![1, 2]) 1 ⟨[2, 2], [1, 0, 0, 1]⟩ (fun _ => ![3, 7]) (fun _ => 0)
        = .ok g) ∧
      (∃ g : Fin 1 → Fin 2 → ℚ, VJP.guidance_score (stubSDE ℚ 2) (eyeM 2)
        (fun _ => ![1, 2]) 1 (fun _ => ![3, 7]) (fun _ => 0) = .ok g) ∧
      (∃ g : Fin 1 → Fin 2 → ℚ, VJPAlt.guidance_score (stubSDE ℚ 2) (eyeM 2)
        (fun _ => ![1, 2]) 1 (fun _ => ![3, 7]) (fun _ => 0) = .ok g) ∧
      (∃ g : Fin 1 → Fin 2 → ℚ, VJPMask.guidance_score (stubSDE ℚ 2) (idObs ℚ 2)
        (fun _ => ![1, 2]) 1 (fun _ => ![3, 7]) (fun _ => 0) = g) ∧
      (∃ g : Fin 1 → Fin 2 → ℚ, VJPDiagonal.guidance_score (stubSDE ℚ 2) (eyeM 2)
        (fun _ => ![1, 2]) 1 (fun _ => ![3, 7]) (fun _ => 0) = g) ∧
      (∃ g : Fin 1 → Fin 2 → ℚ, JacRev.guidance_score (stubSDE ℚ 2) (idObs ℚ 2)
        (fun _ => ![1, 2]) 1 (fun _ => ![3, 7]) (fun _ => 0) = .ok g) ∧
      (∃ g : Fin 1 → Fin 2 → ℚ, JacFwd.guidance_score (stubSDE ℚ 2) (idObs ℚ 2)
        (fun _ => ![1, 2]) 1 (fun _ => ![3, 7]) (fun _ => 0) = .ok g) ∧
      (∃ g : Fin 1 → Fin 2 → ℚ, JacRevDiagonal.guidance_score (stubSDE ℚ 2)
        (idObs ℚ 2) (fun _ => ![1, 2]) 1 (fun _ => ![3, 7]) (fun _ => 0) = g) ∧
      (∃ g : Fin 1 → Fin 2 → ℚ, JacFwdDiagonal.guidance_score (stubSDE ℚ 2)
        (idObs ℚ 2) (fun _ => ![1, 2]) 1 (fun _ => ![3, 7]) (fun _ => 0) = g)) :=
  ⟨⟨by with_unfolding_all decide, by with_unfolding_all decide,
      by with_unfolding_all decide, by with_unfolding_all decide,
      by with_unfolding_all decide⟩,
    guidance_shape_preserved (stubSDE ℚ 2) (idObs ℚ 2) (eyeM 2)
      (fun _ => ![1, 2]) (fun _ => 1) (2 / 5) 1 [1] [1, 0, 0, 1]
      (fun _ => ![3, 7]) (fun _ => 0)
      (by with_unfolding_all decide) (by with_unfolding_all decide)
      (by with_unfolding_all decide) (by with_unfolding_all decide)
      (by with_unfolding_all decide)⟩

theorem matCLM_apply (M : Matrix (Fin dy) (Fin d) ℝ) (v : Fin d → ℝ) :
    matCLM M v = M.mulVec v := by
  simp [matCLM, Matrix.mulVecLin_apply]

theorem l2_norm_hasFDerivAt (sde : SDE ℝ d) (obs : ObsMap ℝ d dy)
    (y : Fin b → Fin dy → ℝ) (x : Fin b → Fin d → ℝ) (t : Fin b → ℝ)
    (hD : ∀ k, HasFDerivAt (fun v => obs.h (sde.x0 v (t k)))
      (matCLM (sde.jTot obs x t k)) (x k))
    (hInn : frobNorm (fun k j => y k j - SDE.h_x_0 sde obs x t k j) ≠ 0) :
    HasFDerivAt (DPS.l2_norm frobNorm sde obs y t)
      ((1 / (2 * Real.sqrt (∑ k, ∑ j,
          (y k j - SDE.h_x_0 sde obs x t k j) ^ 2))) •
        (∑ k, ∑ j,
          ((y k j - SDE.h_x_0 sde obs x t k j) • -sampleDeriv sde obs x t k j +
            (y k j - SDE.h_x_0 sde obs x t k j) • -sampleDeriv sde obs x t k j))) x := by
  have hterm : ∀ (k : Fin b) (j : Fin dy),
      HasFDerivAt (fun v => (y k j - obs.h (sde.x0 (v k) (t k)) j) ^ 2)
        ((y k j - SDE.h_x_0 sde obs x t k j) • -sampleDeriv sde obs x t k j +
          (y k j - SDE.h_x_0 sde obs x t k j) • -sampleDeriv sde obs x t k j) x := by
    intro k j
    have hk : HasFDerivAt (fun v : Fin b → Fin d → ℝ => v k)
        (ContinuousLinearMap.proj k : (Fin b → Fin d → ℝ) →L[ℝ] (Fin d → ℝ)) x :=
      (ContinuousLinearMap.proj k :
        (Fin b → Fin d → ℝ) →L[ℝ] (Fin d → ℝ)).hasFDerivAt
    have h2 : HasFDerivAt (fun v : Fin b → Fin d → ℝ => obs.h (sde.x0 (v k) (t k)))
        ((matCLM (sde.jTot obs x t k)).comp
          (ContinuousLinearMap.proj k :
            (Fin b → Fin d → ℝ) →L[ℝ] (Fin d → ℝ))) x :=
      (hD k).comp x hk
    have h3 : HasFDerivAt
        (fun v : Fin b → Fin d → ℝ => obs.h (sde.x0 (v k) (t k)) j)
        (sampleDeriv sde obs x t k j) x :=
      ((ContinuousLinearMap.proj j :
        (Fin dy → ℝ) →L[ℝ] ℝ).hasFDerivAt).comp x h2
    have h4 : HasFDerivAt
        (fun v : Fin b → Fin d → ℝ => y k j - obs.h (sde.x0 (v k) (t k)) j)
        (-sampleDeriv sde obs x t k j) x := h3.const_sub (y k j)
    have h5 := h4.mul h4
    have hsq : (fun v : Fin b → Fin d → ℝ =>
        (y k j - obs.h (sde.x0 (v k) (t k)) j) ^ 2)
        = fun v => (y k j - obs.h (sde.x0 (v k) (t k)) j) *
            (y k j - obs.h (sde.x0 (v k) (t k)) j) := by
      funext v
      ring
    rw [hsq]
    have : SDE.h_x_0 sde obs x t k j = obs.h (sde.x0 (x k) (t k)) j := rfl
    rw [this]
    exact h5
  have hS : HasFDerivAt
      (fun v => ∑ k, ∑ j, (y k j - obs.h (sde.x0 (v k) (t k)) j) ^ 2)
      (∑ k, ∑ j,
        ((y k j - SDE.h_x_0 sde obs x t k j) • -sampleDeriv sde obs x t k j +
          (y k j - SDE.h_x_0 sde obs x t k j) • -sampleDeriv sde obs x t k j)) x := by
    apply HasFDerivAt.sum
    intro k _
    exact HasFDerivAt.sum fun j _ => hterm k j
  have hS0 : (∑ k, ∑ j, (y k j - SDE.h_x_0 sde obs x t k j) ^ 2) ≠ 0 := by
    intro h0
    apply hInn
    rw [frobNorm, h0, Real.sqrt_zero]
  have hsqrt := Real.hasDerivAt_sqrt hS0
  have := hsqrt.comp_hasFDerivAt x hS
  exact this

theorem DPS_likelihood_is_gradient (sde : SDE ℝ d) (obs : ObsMap ℝ d dy)
    (y : Fin b → Fin dy → ℝ) (x : Fin b → Fin d → ℝ) (t : Fin b → ℝ)
    (hD : ∀ k, HasFDerivAt (fun v => obs.h (sde.x0 v (t k)))
      (matCLM (sde.jTot obs x t k)) (x k))
    (hInn : frobNorm (fun k j => y k j - SDE.h_x_0 sde obs x t k j) ≠ 0)
    (k : Fin b) (i : Fin d) :
    fderiv ℝ (DPS.l2_norm frobNorm sde obs y t) x (Pi.single k (Pi.single i 1))
      = DPS.likelihood_score frobNorm sde obs y x t k i := by
  rw [(l2_norm_hasFDerivAt sde obs y x t hD hInn).fderiv]
  have hS0 : Real.sqrt (∑ k, ∑ j, (y k j - SDE.h_x_0 sde obs x t k j) ^ 2) ≠ 0 := hInn
  have hApp : ∀ (k2 : Fin b) (j : Fin dy),
      sampleDeriv sde obs x t k2 j (Pi.single k (Pi.single i 1))
        = if k2 = k then sde.jTot obs x t k2 j i else 0 := by
    intro k2 j
    simp only [sampleDeriv, ContinuousLinearMap.comp_apply,
      ContinuousLinearMap.proj_apply, matCLM_apply]
    by_cases h : k2 = k
    · subst h
      rw [Pi.single_eq_same, Matrix.mulVec_single]
      simp
    · rw [Pi.single_eq_of_ne h, Matrix.mulVec_zero, if_neg h]
      simp
  simp only [ContinuousLinearMap.smul_apply, ContinuousLinearMap.coe_sum',
    Finset.sum_apply, ContinuousLinearMap.add_apply, ContinuousLinearMap.neg_apply,
    hApp, smul_eq_mul, mul_ite, mul_zero, mul_neg, neg_zero]
  have h1 : ∀ (x1 : Fin b) (x2 : Fin dy),
      ((-if x1 = k then
          (y x1 x2 - SDE.h_x_0 sde obs x t x1 x2) * sde.jTot obs x t x1 x2 i else 0) +
        -if x1 = k then
          (y x1 x2 - SDE.h_x_0 sde obs x t x1 x2) * sde.jTot obs x t x1 x2 i else 0)
      = if x1 = k then
          -2 * ((y x1 x2 - SDE.h_x_0 sde obs x t x1 x2) * sde.jTot obs x t x1 x2 i)
        else 0 := by
    intro x1 x2
    by_cases h : x1 = k
    · simp only [h, if_pos]
      ring
    · simp [h]
  simp only [h1]
  have hsum : (∑ x1 : Fin b, ∑ x2 : Fin dy,
      if x1 = k then
        -2 * ((y x1 x2 - SDE.h_x_0 sde obs x t x1 x2) * sde.jTot obs x t x1 x2 i)
      else 0)
      = ∑ x2 : Fin dy,
          -2 * ((y k x2 - SDE.h_x_0 sde obs x t k x2) * sde.jTot obs x t k x2 i) := by
    rw [Finset.sum_comm]
    simp [Finset.sum_ite_eq']
  rw [hsum]
  simp only [DPS.likelihood_score, frobNorm]
  rw [← Finset.mul_sum]
  field_simp
  ring

/-- C5: with `scale = 0.4`, at every input `(x, t)` where the posterior-mean
estimate is differentiable with the AD-supplied Jacobian and the
innovation is nonzero, the `DPS` guidance score equals
`s − 0.4 · ∇ₓ‖y − h(x̂₀)‖₂` — the unconditional score minus the
hyperparameter-scaled true gradient (`fderiv`) of the L2 norm of the
innovation; the likelihood term is subtracted, unlike every other
variant's `s + ls`. -/
theorem DPS_guidance_formula (sde : SDE ℝ d) (obs : ObsMap ℝ d dy)
    (y : Fin b → Fin dy → ℝ) (x : Fin b → Fin d → ℝ) (t : Fin b → ℝ)
    (hD : ∀ k, HasFDerivAt (fun v => obs.h (sde.x0 v (t k)))
      (matCLM (sde.jTot obs x t k)) (x k))
    (hInn : frobNorm (fun k j => y k j - SDE.h_x_0 sde obs x t k j) ≠ 0) :
    DPS.guidance_score frobNorm sde obs y (4 / 10) x t
      = fun k i => SDE.scoreB sde x t k i
          - (4 / 10) * fderiv ℝ (DPS.l2_norm frobNorm sde obs y t) x
              (Pi.single k (Pi.single i 1)) := by
  funext k i
  rw [DPS_likelihood_is_gradient sde obs y x t hD hInn k i]
  simp only [DPS.guidance_score]

/-- Witness for `DPS_guidance_formula`: the one-dimensional stub
(`x̂₀ = x`, identity observation), where the estimate map is the identity
with Jacobian `1` and the innovation is `2`. -/
theorem DPS_guidance_formula_witness :
    ((∀ k : Fin 1, HasFDerivAt
        (fun v => (idObs ℝ 1).h ((stubSDE ℝ 1).x0 v ((fun _ => (0 : ℝ)) k)))
        (matCLM ((stubSDE ℝ 1).jTot (idObs ℝ 1)
          (fun _ _ => (1 : ℝ)) (fun _ => 0) k))
        ((fun _ _ => (1 : ℝ)) k)) ∧
      frobNorm (fun (k : Fin 1) (j : Fin 1) =>
        (fun _ _ => (3 : ℝ)) k j
          - SDE.h_x_0 (stubSDE ℝ 1) (idObs ℝ 1) (fun _ _ => 1) (fun _ => 0) k j)
        ≠ 0) ∧
    DPS.guidance_score frobNorm (stubSDE ℝ 1) (idObs ℝ 1)
        (fun _ _ => (3 : ℝ) : Fin 1 → Fin 1 → ℝ) (4 / 10)
        (fun _ _ => 1) (fun _ => 0)
      = fun k i => SDE.scoreB (stubSDE ℝ 1) (fun _ _ => 1) (fun _ => 0) k i
          - (4 / 10) * fderiv ℝ
              (DPS.l2_norm frobNorm (stubSDE ℝ 1) (idObs ℝ 1)
                (fun _ _ => (3 : ℝ) : Fin 1 → Fin 1 → ℝ) (fun _ => 0))
              (fun _ _ => 1) (Pi.single k (Pi.single i 1)) := by
  have hM : matCLM ((stubSDE ℝ 1).jTot (idObs ℝ 1)
      (fun _ _ => (1 : ℝ) : Fin 1 → Fin 1 → ℝ) (fun _ => 0) (0 : Fin 1))
      = ContinuousLinearMap.id ℝ (Fin 1 → ℝ) := by
    refine ContinuousLinearMap.ext fun v => ?_
    rw [matCLM_apply]
    funext i
    simp [SDE.jTot, stubSDE, idObs, Matrix.one_mul, Matrix.one_mulVec]
  have hD : ∀ k : Fin 1, HasFDerivAt
      (fun v => (idObs ℝ 1).h ((stubSDE ℝ 1).x0 v ((fun _ => (0 : ℝ)) k)))
      (matCLM ((stubSDE ℝ 1).jTot (idObs ℝ 1)
        (fun _ _ => (1 : ℝ)) (fun _ => 0) k))
      ((fun _ _ => (1 : ℝ)) k) := by
    intro k
    have hk0 : k = 0 := Subsingleton.elim k 0
    subst hk0
    rw [hM]
    exact hasFDerivAt_id _
  have hInn : frobNorm (fun (k : Fin 1) (j : Fin 1) =>
      (fun _ _ => (3 : ℝ)) k j
        - SDE.h_x_0 (stubSDE ℝ 1) (idObs ℝ 1) (fun _ _ => 1) (fun _ => 0) k j)
      ≠ 0 := by
    rw [frobNorm]
    refine ne_of_gt (Real.sqrt_pos.mpr ?_)
    simp [SDE.h_x_0, stubSDE, idObs]
  exact ⟨⟨hD, hInn⟩,
    DPS_guidance_formula (stubSDE ℝ 1) (idObs ℝ 1)
      (fun _ _ => (3 : ℝ) : Fin 1 → Fin 1 → ℝ)
      (fun _ _ => 1) (fun _ => 0) hD hInn⟩

/-- Witness for `pig_uses_r2_not_ratio` at a one-sample, one-dimensional
configuration (the `NeZero` batch hypothesis holds for batch size 1): the
covariance formula, the scalar branch, and the independence from `ratio`. -/
theorem pig_uses_r2_not_ratio_witness :
    PIG.C_yy_full (stubSDE ℚ 1) ⟨[1, 1], [2]⟩ 1 ((fun _ : Fin 1 => (0 : ℚ)) 0) 1
      = (fun i j => (stubSDE ℚ 1).r2 ((fun _ : Fin 1 => (0 : ℚ)) 0) 1
          * ShapedArr.entry2 ⟨[1, 1], [2]⟩ 1 i j + 1 ^ 2 * eyeM 1 i j) ∧
    PIG.guidance_score (stubSDE ℚ 1) (idObs ℚ 1)
        (fun _ _ => (1 : ℚ) : Fin 1 → Fin 1 → ℚ) 1 ⟨[1], [3]⟩
        (fun _ _ => 0) (fun _ => 0)
      = .ok (fun k i =>
          SDE.scoreB (stubSDE ℚ 1) (fun _ _ => 0) (fun _ => 0) k i
            + vjp_estimate_h_x_0 (stubSDE ℚ 1) (idObs ℚ 1) (fun _ _ => 0) (fun _ => 0)
              (fun k2 j => ((fun _ _ => (1 : ℚ) : Fin 1 → Fin 1 → ℚ) k2 j
                  - SDE.h_x_0 (stubSDE ℚ 1) (idObs ℚ 1) (fun _ _ => 0) (fun _ => 0) k2 j)
                / ((stubSDE ℚ 1).r2 ((fun _ : Fin 1 => (0 : ℚ)) 0) 1
                    * ShapedArr.entry0 ⟨[1], [3]⟩ + 1 ^ 2)) k i) ∧
    PIG.guidance_score { stubSDE ℚ 1 with ratio := fun _ => 9 } (idObs ℚ 1)
        (fun _ _ => (1 : ℚ) : Fin 1 → Fin 1 → ℚ) 1 ⟨[1, 1], [2]⟩
        (fun _ _ => 0) (fun _ => 0)
      = PIG.guidance_score (stubSDE ℚ 1) (idObs ℚ 1)
        (fun _ _ => (1 : ℚ) : Fin 1 → Fin 1 → ℚ) 1 ⟨[1, 1], [2]⟩
        (fun _ _ => 0) (fun _ => 0) ∧
    PIG.guidance_score { stubSDE ℚ 1 with ratio := fun _ => 9 } (idObs ℚ 1)
        (fun _ _ => (1 : ℚ) : Fin 1 → Fin 1 → ℚ) 1 ⟨[1], [3]⟩
        (fun _ _ => 0) (fun _ => 0)
      = PIG.guidance_score (stubSDE ℚ 1) (idObs ℚ 1)
        (fun _ _ => (1 : ℚ) : Fin 1 → Fin 1 → ℚ) 1 ⟨[1], [3]⟩
        (fun _ _ => 0) (fun _ => 0) := by
  have h := pig_uses_r2_not_ratio (stubSDE ℚ 1) (idObs ℚ 1)
    (fun _ _ => (1 : ℚ) : Fin 1 → Fin 1 → ℚ) 1 [2] [3]
    (fun _ _ => 0) (fun _ => 0) (fun _ => 9)
  exact ⟨h.1, h.2.2.1, h.2.2.2.1, h.2.2.2.2⟩

end DiffusionNB
